import Mathlib

/-!
# pit: the `project` subcommand (src/project.c)

A shallow embedding of `src/project.c`.  The C file is the only translation
unit available; everything it calls from `pit.h` (the record table engine, the
database session, the action log, the argument helpers, the task subsystem) is
modelled from the specification and marked as such.

Conventions of the embedding:

* text the process stores or writes out (the `char[n]` fields of a record, log
  messages, printed lines) is `Bytes`, the bytes of the C string without its
  terminator; lengths and capacities count bytes;
* text the process is handed (command line tokens, the user name) is a `String`,
  and `c_text` gives its bytes (UTF-8); a nullable `char *` is an `Option String`;
* a pointer into a table (`PProject`, `PTask`) is the slot number of the record
  in the table's record sequence;
* the process-wide tables are an explicit `World`, holding the persisted store,
  the in-memory copy, and the trace of externally visible calls;
* `die` ends the run: a run is an `Except Failure World`.
-/

namespace Pit

/-! ## Data model -/

/-- The bytes of a C string, without its terminator. -/
abbrev Bytes := List UInt8

/-- The bytes of a text, as the process receives it or spells it out (UTF-8). -/
def c_text (s : String) : Bytes := s.data.flatMap String.utf8EncodeChar

/-- Project record (`struct _Project` of pit.h, fields as listed in the data model). -/
structure Project where
  id : Int
  username : Bytes
  name : Bytes
  status : Bytes
  number_of_tasks : Int
  created_at : Nat
  updated_at : Nat
deriving DecidableEq, Repr

/-- Task record: identity, owning project, and the task-specific remainder. -/
structure Task where
  id : Int
  project_id : Int
  details : String
deriving DecidableEq, Repr

/-- Action log entry (`Action a = { pp->id, 0 }` followed by a message). -/
structure Action where
  project_id : Int
  task_id : Int
  message : Bytes
deriving DecidableEq, Repr

/-- Records that carry an id assigned by their table. -/
class HasId (α : Type) where
  id : α → Int
  setId : α → Int → α

instance : HasId Project where
  id p := p.id
  setId p i := { p with id := i }

instance : HasId Task where
  id t := t.id
  setId t i := { t with id := i }

/-- The C initialiser `Project p = { 0 }`. -/
def Project.zero : Project :=
  { id := 0, username := [], name := [], status := [], number_of_tasks := 0,
    created_at := 0, updated_at := 0 }

instance : Inhabited Project := ⟨Project.zero⟩

/-- Modelled from the spec: the Record Table of pit.h (table.c is not part of
the sources).  An ordered record sequence, the current mark (0 means none) and
the monotonic id counter. -/
structure Table (α : Type) where
  records : List α
  current : Int
  auto_increment : Int
deriving DecidableEq, Repr

/-- Slot of the first record of a sequence whose id is `id`. -/
def find_slot {α : Type} [HasId α] (id : Int) : List α → Option Nat
  | [] => none
  | r :: rs => if HasId.id r = id then some 0 else (find_slot id rs).map (· + 1)

/-- Modelled from the spec: `find(id) -> record or NotFound` (pit_table_find),
returning the slot of the record. -/
def pit_table_find {α : Type} [HasId α] (t : Table α) (id : Int) : Option Nat :=
  find_slot id t.records

/-- Modelled from the spec: `current() -> record or NotFound` (pit_table_current),
resolving the current mark; unset or stale marks do not resolve. -/
def pit_table_current {α : Type} [HasId α] (t : Table α) : Option Nat :=
  if t.current = 0 then none else pit_table_find t t.current

/-- Modelled from the spec: `mark(id)` sets the current mark, `mark(0)` clears it
(pit_table_mark). -/
def pit_table_mark {α : Type} (t : Table α) (id : Int) : Table α :=
  { t with current := id }

/-- Modelled from the spec: `insert(record) -> id` (pit_table_insert): assigns the
next unused id from the table-wide counter, appends to the sequence, and returns
the slot of the populated record. -/
def pit_table_insert {α : Type} [HasId α] (t : Table α) (r : α) : Table α × Nat :=
  ({ t with records := t.records ++ [HasId.setId r (t.auto_increment + 1)],
            auto_increment := t.auto_increment + 1 },
   t.records.length)

/-- Modelled from the spec: `delete(id) -> removed record or NotFound`
(pit_table_delete): removes the record from the sequence, later records move
down one slot; if it was current the mark is cleared. -/
def pit_table_delete {α : Type} [HasId α] (t : Table α) (id : Int) : Option (Table α × α) :=
  match pit_table_find t id with
  | none => none
  | some i =>
    match t.records[i]? with
    | none => none
    | some r =>
      some ({ t with records := t.records.eraseIdx i,
                     current := if t.current = id then 0 else t.current }, r)

/-- Write through a record pointer: replace the record in slot `i`. -/
def Table.store {α : Type} (t : Table α) (i : Nat) (r : α) : Table α :=
  { t with records := t.records.set i r }

/-- The database: the two tables of this subcommand and the action log. -/
structure Db where
  projects : Table Project
  tasks : Table Task
  actions : List Action
deriving DecidableEq, Repr

/-- Externally visible calls, in the order they happen. -/
inductive Event where
  | load
  | save
  | format_initialize (number_of_records : Nat)
  | format (p : Project)
  | format_flush
  | print (line : Bytes)
  | task_list (project_id : Int)
  | task_delete (task_id : Int)
deriving DecidableEq, Repr

/-- The process and its store: `disk` is the persisted store, `db` the tables in
memory, `loaded` whether this process has loaded them, `trace` the calls made. -/
structure World where
  disk : Db
  db : Db
  loaded : Bool
  trace : List Event
deriving DecidableEq, Repr

/-- The empty database. -/
def Db.empty : Db :=
  { projects := { records := [], current := 0, auto_increment := 0 },
    tasks := { records := [], current := 0, auto_increment := 0 },
    actions := [] }

/-- A fresh process started on a persisted store. -/
def World.boot (d : Db) : World :=
  { disk := d, db := Db.empty, loaded := false, trace := [] }

/-- Why a run stopped: `die` with its message, or the embedding's loop budget. -/
inductive Stop where
  | died (message : String)
  | out_of_fuel
deriving DecidableEq, Repr

/-- A stopped run: the reason and the world at that point. -/
structure Failure where
  stop : Stop
  world : World
deriving DecidableEq, Repr

/-- Modelled from the spec: `die` prints one diagnostic and terminates the
process at once. -/
def die {α : Type} (message : String) (w : World) : Except Failure α :=
  .error { stop := .died message, world := w }

/-- What pit.h and the environment fix for project.c: the sizes of the three
text fields of `Project`, the resolver `current_user()`, and the message the
task subsystem logs for a deleted task. -/
structure Env where
  name_size : Nat
  status_size : Nat
  username_size : Nat
  current_user : String
  task_delete_message : Task → Bytes

/-- The `%d` conversion of sprintf. -/
def fmt_d (i : Int) : String := toString i

/-- The call `strncpy(field, src, sizeof(field) - 1)` on a field whose last byte is
NUL: the field then reads as the first `size - 1` bytes of `src`. -/
def strncpy_field (size : Nat) (src : String) : Bytes :=
  (c_text src).take (size - 1)

/-- Modelled from the spec: `load()` is idempotent; the first call reads the
persisted store into the tables (pit_db_load). -/
def pit_db_load (w : World) : World :=
  if w.loaded then { w with trace := w.trace ++ [Event.load] }
  else { w with db := w.disk, loaded := true, trace := w.trace ++ [Event.load] }

/-- Modelled from the spec: `save()` writes the tables and the log back to the
persisted store (pit_db_save). -/
def pit_db_save (w : World) : World :=
  { w with disk := w.db, trace := w.trace ++ [Event.save] }

/-- Modelled from the spec: the Action Log is append-only (pit_action). -/
def pit_action (a : Action) (w : World) : World :=
  { w with db := { w.db with actions := w.db.actions ++ [a] } }

/-- Record read through a project pointer. -/
def World.project (w : World) (pp : Nat) : Project :=
  w.db.projects.records.getD pp default

/-- Replace the projects table. -/
def World.setProjects (w : World) (t : Table Project) : World :=
  { w with db := { w.db with projects := t } }

/-- Replace the tasks table. -/
def World.setTasks (w : World) (t : Table Task) : World :=
  { w with db := { w.db with tasks := t } }

/-- Append an event to the trace. -/
def World.emit (w : World) (e : Event) : World :=
  { w with trace := w.trace ++ [e] }

/-! ## The operations of project.c -/

/-- The parsed field options `po->project` (both pointers NULL initially). -/
structure Options where
  name : Option String
  status : Option String
deriving DecidableEq, Repr

/-- `Options opt = {{ 0 }}`. -/
def Options.zero : Options := { name := none, status := none }

/-- `is_zero((char *)&opt.project, sizeof(opt.project))`: no field option was set. -/
def is_zero (po : Options) : Bool := po.name.isNone && po.status.isNone

/-- C `tolower` on one byte (C locale): the letters `A` to `Z` go to `a` to `z`. -/
def byte_lower (b : UInt8) : UInt8 :=
  if 65 ≤ b.toNat ∧ b.toNat ≤ 90 then UInt8.ofNat (b.toNat + 32) else b

/-- Modelled from the spec: `stristr`, the case-insensitive substring test used
for filtering (the helper is not part of the sources). -/
def stristr (haystack : Bytes) (needle : String) : Bool :=
  (haystack.map byte_lower).tails.any
    (fun t => ((c_text needle).map byte_lower).isPrefixOf t)

/-- Source lines 17-26: full scan of the projects table with `strcmp`. -/
def project_already_exist (name : String) (w : World) : Bool × World :=
  let w := pit_db_load w
  (w.db.projects.records.any (fun pp => pp.name == c_text name), w)

/-- Source lines 28-38: resolve an explicit id or the current mark; returns the
id of the record and the pointer to it. -/
def project_find_current (id : Int) (w : World) : Except Failure (Int × Nat) :=
  if id ≠ 0 then
    match pit_table_find w.db.projects id with
    | none => die ("could not find project " ++ fmt_d id) w
    | some pp => .ok ((w.project pp).id, pp)
  else
    match pit_table_current w.db.projects with
    | none => die "could not find current project" w
    | some pp => .ok ((w.project pp).id, pp)

/-- Source lines 40-46. -/
def project_log_create (pp : Project) (w : World) : World :=
  pit_action
    { project_id := pp.id, task_id := 0,
      message := c_text ("created project " ++ fmt_d pp.id ++ ": ") ++ pp.name ++
                 c_text " (status: " ++ pp.status ++ c_text ")" } w

/-- Source lines 48-65: the message is built up piecewise in `a.message`. -/
def project_log_update (pp : Project) (po : Options) (w : World) : World :=
  let message := c_text ("updated project " ++ fmt_d pp.id ++ ":")
  let empty := po.name.isNone
  let message :=
    if po.name.isSome then message ++ c_text " (name: " ++ pp.name
    else message ++ c_text " " ++ pp.name ++ c_text " ("
  let message :=
    if po.status.isSome then
      message ++ c_text ((if empty then "" else ", ") ++ "status: ") ++ pp.status
    else message
  let message := message ++ c_text ")"
  pit_action { project_id := pp.id, task_id := 0, message := message } w

/-- Source lines 67-76. -/
def project_log_delete (id : Int) (name : Bytes) (number_of_tasks : Int) (w : World) : World :=
  let message := c_text ("deleted project " ++ fmt_d id ++ ": ") ++ name
  let message :=
    if number_of_tasks > 0 then
      message ++ c_text (" with " ++ fmt_d number_of_tasks ++ " task" ++
        (if number_of_tasks = 1 then "" else "s"))
    else message
  pit_action { project_id := id, task_id := 0, message := message } w

/-- The `continue` condition of the listing loop (source lines 86-87). -/
def project_list_skips (po : Options) (pp : Project) : Bool :=
  (match po.name with
   | some n => !stristr pp.name n
   | none => false) ||
  (match po.status with
   | some s => !stristr pp.status s
   | none => false)

/-- The `for_each_project` loop of project_list (source lines 85-90). -/
def project_list_loop (po : Options) : List Project → World → World
  | [], w => w
  | pp :: rest, w =>
    if project_list_skips po pp then project_list_loop po rest w
    else project_list_loop po rest (w.emit (Event.format pp))

/-- Source lines 78-93. -/
def project_list (po : Options) (w : World) : Except Failure World :=
  let w := pit_db_load w
  if w.db.projects.records.length > 0 then
    let w := w.emit (Event.format_initialize w.db.projects.records.length)
    let w := project_list_loop po w.db.projects.records w
    .ok (w.emit Event.format_flush)
  else .ok w

/-- The line project_show prints for a record (source lines 104-105). -/
def project_show_line (p : Project) : Bytes :=
  c_text ("* " ++ fmt_d p.id ++ ": (") ++ p.username ++ c_text ") " ++ p.name ++
    c_text " (status: " ++ p.status ++
    c_text (", " ++ fmt_d p.number_of_tasks ++ " task" ++
      (if p.number_of_tasks ≠ 1 then "s" else "") ++ ")\n")

/-- Source lines 95-113 (the `else` branch is dead: project_find_current dies
rather than return a null pointer). -/
def project_show (id : Int) (w : World) : Except Failure World := do
  let w := pit_db_load w
  let (_, pp) ← project_find_current id w
  let p := w.project pp
  let w := w.emit (Event.print (project_show_line p))
  let w := w.setProjects (pit_table_mark w.db.projects p.id)
  let w := if p.number_of_tasks > 0 then w.emit (Event.task_list p.id) else w
  .ok (pit_db_save w)

/-- Source lines 115-136. -/
def project_create (env : Env) (po : Options) (w : World) : Except Failure World :=
  let w := pit_db_load w
  match po.name with
  | none => die "missing project name" w  -- pit_arg_string has died before this call
  | some name =>
    let (exist, w) := project_already_exist name w
    if exist then
      die "project with the same name already exists" w
    else
      let status := po.status.getD "active"
      let p : Project :=
        { Project.zero with
          name := strncpy_field env.name_size name,
          status := strncpy_field env.status_size status,
          username := strncpy_field env.username_size env.current_user }
      let (t, pp) := pit_table_insert w.db.projects p
      let w := w.setProjects t
      let w := w.setProjects (pit_table_mark w.db.projects (w.project pp).id)
      let w := project_log_create (w.project pp) w
      .ok (pit_db_save w)

/-- Source lines 138-152. -/
def project_update (env : Env) (id : Int) (po : Options) (w : World) : Except Failure World := do
  let w := pit_db_load w
  let (_, pp) ← project_find_current id w
  let w := match po.name with
    | some name =>
      w.setProjects (w.db.projects.store pp
        { w.project pp with name := strncpy_field env.name_size name })
    | none => w
  let w := match po.status with
    | some status =>
      w.setProjects (w.db.projects.store pp
        { w.project pp with status := strncpy_field env.status_size status })
    | none => w
  let w := w.setProjects (w.db.projects.store pp
    { w.project pp with username := strncpy_field env.username_size env.current_user })
  let w := w.setProjects (pit_table_mark w.db.projects (w.project pp).id)
  let w := project_log_update (w.project pp) po w
  .ok (pit_db_save w)

/-- Modelled from the spec: the task subsystem's `delete(task_id, owning_project)`
(pit_task_delete).  As every entity operation it calls `load()` before it reads
or changes a table (a no-op in a process that has loaded) and `save()` after its
mutation; it removes the task from the task table, decrements the owning
project's `number_of_tasks`, and appends the task's Action Log entry. -/
def pit_task_delete (env : Env) (id : Int) (pp : Nat) (w : World) : Except Failure World :=
  let w := w.emit (Event.task_delete id)
  let w := pit_db_load w
  match pit_table_delete w.db.tasks id with
  | none => die ("could not find task " ++ fmt_d id) w
  | some (t, removed) =>
    let w := w.setTasks t
    let w := w.setProjects (w.db.projects.store pp
      { w.project pp with number_of_tasks := (w.project pp).number_of_tasks - 1 })
    let w := pit_action
      { project_id := (w.project pp).id, task_id := id,
        message := env.task_delete_message removed } w
    .ok (pit_db_save w)

/-- The `for_each_task` loop of project_delete (source lines 164-169).  `pt` is
the cursor into the task table; the loop condition `pt < number_of_records` is
re-read on every pass.  After a deletion `--pt` and the loop's `pt++` leave the
cursor where it is.  `fuel` bounds the number of passes. -/
def project_delete_loop (env : Env) (id : Int) (pp : Nat) :
    Nat → Nat → World → Except Failure World
  | fuel, pt, w =>
    match w.db.tasks.records[pt]? with
    | none => .ok w
    | some t =>
      match fuel with
      | 0 => .error { stop := Stop.out_of_fuel, world := w }
      | fuel + 1 =>
        if t.project_id = id then
          match pit_task_delete env t.id pp w with
          | .error e => .error e
          | .ok w => project_delete_loop env id pp fuel pt w
        else project_delete_loop env id pp fuel (pt + 1) w

/-- Source lines 154-186.  The loop is given one pass per task record present
when it starts. -/
def project_delete (env : Env) (id : Int) (w : World) : Except Failure World := do
  let w := pit_db_load w
  let (id, pp) ← project_find_current id w
  let w ←
    if (w.project pp).number_of_tasks > 0 then
      project_delete_loop env id pp w.db.tasks.records.length 0 w
    else .ok w
  let deleted_name := (w.project pp).name
  let deleted_number_of_tasks := (w.project pp).number_of_tasks
  match pit_table_delete w.db.projects id with
  | some (t, _) =>
    let w := w.setProjects t
    let w := w.setProjects (pit_table_mark w.db.projects 0)
    let w := project_log_delete id deleted_name deleted_number_of_tasks w
    .ok (pit_db_save w)
  | none => die "could not delete the project" w

/-! ## Command line dispatch -/

/-- Value of a run of decimal digits read left to right, starting from `acc`;
stops at the first character that is not a digit. -/
def atoi_digits : List Char → Nat → Nat
  | [], acc => acc
  | c :: cs, acc =>
    if c.isDigit then atoi_digits cs (10 * acc + (c.toNat - 48)) else acc

/-- C `atoi` without leading blanks: an optional sign and the leading digits. -/
def atoi (s : String) : Int :=
  match s.data with
  | '-' :: cs => - (atoi_digits cs 0 : Int)
  | '+' :: cs => (atoi_digits cs 0 : Int)
  | cs => (atoi_digits cs 0 : Int)

/-- Modelled from the spec: `pit_arg_number(arg, NULL)`, an optional number: 0
when the argument is absent or is not a number. -/
def pit_arg_number (arg : Option String) : Int :=
  match arg with
  | none => 0
  | some s => atoi s

/-- Modelled from the spec: `pit_arg_option(arg)`: the option letter of a token
of the form `-x`; a token that is not an option has none. -/
def pit_arg_option (arg : String) : Option Char :=
  match arg.data with
  | '-' :: c :: _ => some c
  | _ => none

/-- Modelled from the spec: `pit_arg_string(arg, what)`, a required string
argument: dies when the argument is absent. -/
def pit_arg_string (arg : Option String) (what : String) (w : World) : Except Failure String :=
  match arg with
  | none => die ("missing " ++ what) w
  | some s => .ok s

/-- The loop of project_parse_options (source lines 190-201) over the tokens that
follow `arg`. -/
def project_parse_options_loop : List String → Options → World → Except Failure Options
  | [], po, _ => .ok po
  | tok :: rest, po, w =>
    match pit_arg_option tok with
    | some 'n' =>
      match rest with
      | [] => die "missing project name" w
      | value :: rest => project_parse_options_loop rest { po with name := some value } w
    | some 's' =>
      match rest with
      | [] => die "missing project status" w
      | value :: rest => project_parse_options_loop rest { po with status := some value } w
    | _ => die ("invalid project option: " ++ tok) w

/-- Source lines 188-202; `arg` is the index into `argv` of the token the caller
stands on. -/
def project_parse_options (argv : List String) (arg : Nat) (po : Options) (w : World) :
    Except Failure Options :=
  project_parse_options_loop (argv.drop (arg + 1)) po w

/-- Source lines 220-272.  `argv[0]` is the subcommand word; the array ends at the
end of the list. -/
def pit_project (env : Env) (argv : List String) (w : World) : Except Failure World :=
  match argv[1]? with
  | none => project_list Options.zero w
  | some tok =>
    let number := pit_arg_number (some tok)
    if number ≠ 0 then project_show number w
    else
      match pit_arg_option tok with
      | some 'c' => do
        let name ← pit_arg_string argv[2]? "project name" w
        let opt ← project_parse_options argv 2 { Options.zero with name := some name } w
        project_create env opt w
      | some 'e' => do
        let number := pit_arg_number argv[2]?
        let arg := if number = 0 then 1 else 2
        let opt ← project_parse_options argv arg Options.zero w
        if is_zero opt then die "nothing to update" w
        else project_update env number opt w
      | some 'd' =>
        let number := pit_arg_number argv[2]?
        project_delete env number w
      | some 'q' =>
        let number := pit_arg_number argv[2]?
        if number ≠ 0 then project_show number w
        else do
          let opt ← project_parse_options argv 1 Options.zero w
          if is_zero opt then project_show 0 w
          else project_list opt w
      | _ => die ("invalid project option: " ++ tok) w

/-! ## Vocabulary of the statements -/

/-- Tasks of a sequence that belong to project `id`. -/
def owned_tasks (id : Int) (ts : List Task) : List Task :=
  ts.filter (fun t => decide (t.project_id = id))

/-- Tasks of a sequence that belong to another project than `id`. -/
def other_tasks (id : Int) (ts : List Task) : List Task :=
  ts.filter (fun t => decide (t.project_id ≠ id))

/-- The task deletions recorded in a trace, in order. -/
def task_deletions : List Event → List Int
  | [] => []
  | Event.task_delete i :: es => i :: task_deletions es
  | _ :: es => task_deletions es

/-- A project record after `k` of its tasks were deleted by the task subsystem. -/
def Project.dropTasks (p : Project) (k : Nat) : Project :=
  { p with number_of_tasks := p.number_of_tasks - k }

/-- What the cascade loop, started with its cursor after `pre` and with `suf`
still ahead, leaves behind: `w` is the world before, `w1` the world after. -/
structure Cascaded (env : Env) (id : Int) (pp : Nat) (pre suf : List Task)
    (w w1 : World) : Prop where
  tasks_records : w1.db.tasks.records = pre ++ other_tasks id suf
  tasks_current : w1.db.tasks.current =
    if w.db.tasks.current ∈ (owned_tasks id suf).map (fun t => t.id) then 0
    else w.db.tasks.current
  tasks_counter : w1.db.tasks.auto_increment = w.db.tasks.auto_increment
  projects : w1.db.projects =
    w.db.projects.store pp ((w.project pp).dropTasks (owned_tasks id suf).length)
  actions : w1.db.actions = w.db.actions ++ (owned_tasks id suf).map (fun t =>
    { project_id := (w.project pp).id, task_id := t.id,
      message := env.task_delete_message t })
  trace : w1.trace = w.trace ++ (owned_tasks id suf).flatMap
    (fun t => [Event.task_delete t.id, Event.load, Event.save])
  disk : owned_tasks id suf ≠ [] → w1.disk = w1.db
  unchanged : owned_tasks id suf = [] → w1 = w
  loaded : w1.loaded = w.loaded

/-- The world project_delete leaves when it succeeds on the project `pid` in slot
`pp`, given the world `wc` reached after the cascade. -/
def project_deleted (pid : Int) (pp : Nat) (wc : World) : World :=
  pit_db_save
    (project_log_delete pid (wc.project pp).name (wc.project pp).number_of_tasks
      (wc.setProjects
        { records := wc.db.projects.records.eraseIdx pp,
          current := 0,
          auto_increment := wc.db.projects.auto_increment }))

/-! ## Examples used to instantiate the statements -/

/-- An environment: field sizes 8, 8 and 8, acting user `alice`. -/
def env0 : Env :=
  { name_size := 8, status_size := 8, username_size := 8, current_user := "alice",
    task_delete_message := fun t => c_text ("deleted task " ++ fmt_d t.id) }

/-- The same environment with an acting user whose name does not fit the
username field. -/
def env1 : Env := { env0 with current_user := "alexandria" }

/-- A store with two projects; project 1 owns tasks 1 and 3, project 2 owns task 2. -/
def db0 : Db :=
  { projects :=
      { records :=
          [{ id := 1, username := c_text "bob", name := c_text "Alpha", status := c_text "active",
             number_of_tasks := 2, created_at := 0, updated_at := 0 },
           { id := 2, username := c_text "bob", name := c_text "Beta", status := c_text "active",
             number_of_tasks := 1, created_at := 0, updated_at := 0 }],
        current := 2, auto_increment := 2 },
    tasks :=
      { records :=
          [{ id := 1, project_id := 1, details := "a" },
           { id := 2, project_id := 2, details := "b" },
           { id := 3, project_id := 1, details := "c" }],
        current := 3, auto_increment := 3 },
    actions := [] }


/-- A store whose only project records no tasks although task 1 carries its id. -/
def db2 : Db :=
  { projects :=
      { records :=
          [{ id := 1, username := c_text "bob", name := c_text "Alpha", status := c_text "active",
             number_of_tasks := 0, created_at := 0, updated_at := 0 }],
        current := 1, auto_increment := 1 },
    tasks :=
      { records := [{ id := 1, project_id := 1, details := "a" }],
        current := 1, auto_increment := 1 },
    actions := [] }

/-- The record project_create builds and inserts into table `t`. -/
def created_record (env : Env) (name : String) (status : Option String)
    (t : Table Project) : Project :=
  { id := t.auto_increment + 1,
    username := strncpy_field env.username_size env.current_user,
    name := strncpy_field env.name_size name,
    status := strncpy_field env.status_size (status.getD "active"),
    number_of_tasks := 0, created_at := 0, updated_at := 0 }

/-- The world project_create leaves when it succeeds, given the loaded world `w0`. -/
def project_created (env : Env) (name : String) (status : Option String) (w0 : World) : World :=
  pit_db_save
    (project_log_create (created_record env name status w0.db.projects)
      (w0.setProjects
        { records := w0.db.projects.records ++ [created_record env name status w0.db.projects],
          current := w0.db.projects.auto_increment + 1,
          auto_increment := w0.db.projects.auto_increment + 1 }))

/-- The target record after project_update wrote the supplied fields and the
acting user through the record pointer. -/
def updated_record (env : Env) (po : Options) (p : Project) : Project :=
  { p with
    name := match po.name with
      | some name => strncpy_field env.name_size name
      | none => p.name,
    status := match po.status with
      | some status => strncpy_field env.status_size status
      | none => p.status,
    username := strncpy_field env.username_size env.current_user }

/-- The world project_update leaves when it succeeds on the record in slot `pp`,
given the loaded world `w0`. -/
def project_updated (env : Env) (po : Options) (pp : Nat) (w0 : World) : World :=
  pit_db_save
    (project_log_update (updated_record env po (w0.project pp)) po
      (w0.setProjects
        { records := w0.db.projects.records.set pp (updated_record env po (w0.project pp)),
          current := (w0.project pp).id,
          auto_increment := w0.db.projects.auto_increment }))

/-- Following the words of the listing contract: a record passes when its name
contains the name filter (if given) and its status contains the status filter (if
given). -/
def project_list_passes (po : Options) (p : Project) : Bool :=
  (match po.name with
   | some n => stristr p.name n
   | none => true) &&
  (match po.status with
   | some s => stristr p.status s
   | none => true)

/-- The records handed to the formatter in a trace, in order. -/
def formatted : List Event → List Project
  | [] => []
  | Event.format p :: es => p :: formatted es
  | _ :: es => formatted es

/-- The world project_show leaves when it succeeds on the record in slot `pp`,
given the loaded world `w0`. -/
def project_shown (pp : Nat) (w0 : World) : World :=
  let p := w0.project pp
  let w := w0.emit (Event.print (project_show_line p))
  let w := w.setProjects (pit_table_mark w.db.projects p.id)
  let w := if p.number_of_tasks > 0 then w.emit (Event.task_list p.id) else w
  pit_db_save w

/-- The world an outcome ends in: the final world of a successful run, the world
at the point of death of a failed one. -/
def outcome_world : Except Failure World → World
  | .ok w => w
  | .error f => f.world

/-- A run from `w` to `w1` that loaded first and saved exactly once, as its last
call; the persisted store is then the tables in memory. -/
def Saved (w w1 : World) : Prop :=
  ∃ mid, w1.trace = w.trace ++ Event.load :: (mid ++ [Event.save]) ∧
    Event.save ∉ mid ∧ w1.disk = w1.db

/-- A run from `w` to `w1` that never saved: its calls, if any, begin with a
load, and the persisted store is untouched. -/
def Unsaved (w w1 : World) : Prop :=
  ∃ added, w1.trace = w.trace ++ added ∧ Event.save ∉ added ∧
    (added = [] ∨ added.head? = some Event.load) ∧ w1.disk = w.disk

/-- A run of project_delete from `w` to `w1`: it loaded first; each task deletion
`ds` of its cascade is followed by the load and the save of the task subsystem;
its own save is its last call; the persisted store is then the tables in
memory. -/
def Cascade_saved (w w1 : World) : Prop :=
  ∃ ds : List Int,
    w1.trace = w.trace ++ Event.load ::
      (ds.flatMap (fun i => [Event.task_delete i, Event.load, Event.save]) ++
        [Event.save]) ∧
    w1.disk = w1.db

/-- What a command line of the project subcommand asks for, once dispatched. -/
inductive Command where
  | list (po : Options)
  | display (id : Int)
  | create (po : Options)
  | update (id : Int) (po : Options)
  | delete (id : Int)
  | invalid (message : String)
deriving DecidableEq, Repr

/-- Carry out a dispatched command. -/
def run_command (env : Env) : Command → World → Except Failure World
  | .list po, w => project_list po w
  | .display id, w => project_show id w
  | .create po, w => project_create env po w
  | .update id po, w => project_update env id po w
  | .delete id, w => project_delete env id w
  | .invalid message, w => die message w

/-- The save discipline of one outcome of an operation started in `w`: a
successful run is `Saved`, a failed one `Unsaved`. -/
def Disciplined (w : World) (r : Except Failure World) : Prop :=
  match r with
  | .ok w1 => Saved w w1
  | .error f => Unsaved w f.world

/-- The tokens of a list of field options, each an option token followed by its
value. -/
def field_tokens : List (String × String) → List String
  | [] => []
  | (option, value) :: rest => option :: value :: field_tokens rest

/-- A token that project_parse_options accepts as a field option: `-n` or `-s`. -/
def is_field_option (tok : String) : Prop :=
  pit_arg_option tok = some 'n' ∨ pit_arg_option tok = some 's'

/-! ## Text fields as byte buffers -/

/-- The terminator of C strings. -/
def NUL : UInt8 := 0

/-- C `strncpy(dst, src, n)` on the bytes of a buffer `dst` of at least `n`
bytes, `src` being the bytes of the source string without its terminator: the
first `n` bytes become the bytes of `src`, cut to `n` bytes or padded with NUL up
to `n` bytes; the bytes of `dst` from position `n` on are kept. -/
def c_strncpy (dst src : Bytes) (n : Nat) : Bytes :=
  src.take n ++ List.replicate (n - src.length) NUL ++ dst.drop n

/-- The text a buffer holds when read as a C string: the bytes before the first
NUL. -/
def c_string (buf : Bytes) : Bytes :=
  buf.takeWhile (fun c => decide (c ≠ NUL))

/-- A text field of `size` bytes whose last byte is NUL, as in a record built from
`Project p = { 0 }` and written only by `strncpy(field, src, sizeof(field) - 1)`. -/
def terminated_field (size : Nat) (buf : Bytes) : Prop :=
  0 < size ∧ buf.length = size ∧ buf[size - 1]? = some NUL

/-! ## Table lemmas -/

theorem find_slot_append_fresh {α : Type} [HasId α] (pre : List α) (t : α) (suf : List α)
    (h : ∀ r ∈ pre, HasId.id r ≠ HasId.id t) :
    find_slot (HasId.id t) (pre ++ t :: suf) = some pre.length := by
  induction pre with
  | nil => simp [find_slot]
  | cons r pre ih =>
    have hr : HasId.id r ≠ HasId.id t := h r (by simp)
    have ih2 := ih (fun x hx => h x (by simp [hx]))
    simp [find_slot, hr, ih2]

theorem pit_table_delete_at {α : Type} [HasId α] (t : Table α) (pre : List α) (r : α)
    (suf : List α) (hrec : t.records = pre ++ r :: suf)
    (h : ∀ x ∈ pre, HasId.id x ≠ HasId.id r) :
    pit_table_delete t (HasId.id r) =
      some ({ t with records := pre ++ suf,
                     current := if t.current = HasId.id r then 0 else t.current }, r) := by
  unfold pit_table_delete pit_table_find
  rw [hrec, find_slot_append_fresh pre r suf h]
  have h1 : (pre ++ r :: suf)[pre.length]? = some r := by
    rw [List.getElem?_append_right (Nat.le_refl _)]
    simp
  have h2 : (pre ++ r :: suf).eraseIdx pre.length = pre ++ suf := by
    rw [List.eraseIdx_append_of_length_le (Nat.le_refl _)]
    simp
  simp only [h1, h2]

theorem getD_set_self {α : Type} (l : List α) (i : Nat) (x d : α) (h : i < l.length) :
    (l.set i x).getD i d = x := by
  simp [List.getD_eq_getElem?_getD, h]

theorem set_getD_self {α : Type} (l : List α) (i : Nat) (d : α) :
    l.set i (l.getD i d) = l := by
  induction l generalizing i with
  | nil => simp
  | cons a l ih =>
    cases i with
    | zero => simp
    | succ i =>
      have h := ih i
      simp only [List.getD_eq_getElem?_getD] at h
      simp [h]

theorem Table.store_store {α : Type} (t : Table α) (i : Nat) (x y : α) :
    (t.store i x).store i y = t.store i y := by
  simp [Table.store]

theorem dropTasks_zero (p : Project) : p.dropTasks 0 = p := by
  simp [Project.dropTasks]

theorem dropTasks_dropTasks (p : Project) (j k : Nat) :
    (p.dropTasks j).dropTasks k = p.dropTasks (j + k) := by
  simp only [Project.dropTasks, Nat.cast_add]
  congr 1
  omega

theorem project_after_store (w : World) (pp : Nat) (x : Project)
    (hpp : pp < w.db.projects.records.length) :
    (w.setProjects (w.db.projects.store pp x)).project pp = x := by
  simp only [World.project, World.setProjects, Table.store]
  exact getD_set_self _ _ _ _ hpp

theorem store_project_self (w : World) (pp : Nat) :
    w.db.projects.store pp (w.project pp) = w.db.projects := by
  simp only [World.project, Table.store, set_getD_self]

/-! ## The cascade of project_delete -/

theorem pit_db_load_loaded (w : World) (h : w.loaded = true) :
    pit_db_load w = { w with trace := w.trace ++ [Event.load] } := by
  simp [pit_db_load, h]

theorem pit_task_delete_at (env : Env) (pp : Nat) (w : World) (pre : List Task) (t : Task)
    (suf : List Task) (hrec : w.db.tasks.records = pre ++ t :: suf)
    (h : ∀ x ∈ pre, x.id ≠ t.id) (hpp : pp < w.db.projects.records.length)
    (hl : w.loaded = true) :
    ∃ w1, pit_task_delete env t.id pp w = .ok w1 ∧
      w1.db.tasks = { records := pre ++ suf,
                      current := if w.db.tasks.current = t.id then 0 else w.db.tasks.current,
                      auto_increment := w.db.tasks.auto_increment } ∧
      w1.db.projects = w.db.projects.store pp ((w.project pp).dropTasks 1) ∧
      w1.db.actions = w.db.actions ++
        [{ project_id := (w.project pp).id, task_id := t.id,
           message := env.task_delete_message t }] ∧
      w1.trace = w.trace ++ [Event.task_delete t.id, Event.load, Event.save] ∧
      w1.disk = w1.db ∧ w1.loaded = w.loaded := by
  have hload : pit_db_load (w.emit (Event.task_delete t.id)) =
      { w with trace := w.trace ++ [Event.task_delete t.id] ++ [Event.load] } :=
    pit_db_load_loaded (w.emit (Event.task_delete t.id)) hl
  have hd := pit_table_delete_at w.db.tasks pre t suf hrec h
  have hid : HasId.id t = t.id := rfl
  rw [hid] at hd
  unfold pit_task_delete
  simp only [hload, hd]
  refine ⟨_, rfl, rfl, ?_, ?_, ?_, rfl, hl.symm ▸ rfl⟩
  · rfl
  · have hx : (({ w with trace := w.trace ++ [Event.task_delete t.id] ++ [Event.load] } :
        World).setTasks
        { records := pre ++ suf,
          current := if w.db.tasks.current = t.id then 0 else w.db.tasks.current,
          auto_increment := w.db.tasks.auto_increment }).db.projects.records.length
        = w.db.projects.records.length := rfl
    simp only [pit_action, pit_db_save]
    rw [project_after_store _ pp _ (by rw [hx]; exact hpp)]
    rfl
  · simp [pit_db_save, pit_action, World.setProjects, World.setTasks]

theorem owned_nil_other_eq (id : Int) (ts : List Task) (h : owned_tasks id ts = []) :
    other_tasks id ts = ts := by
  unfold other_tasks
  unfold owned_tasks at h
  rw [List.filter_eq_nil_iff] at h
  rw [List.filter_eq_self]
  intro a ha
  simpa using h a ha

theorem project_delete_loop_spec (env : Env) (id : Int) (pp : Nat) :
    ∀ (suf pre : List Task) (fuel : Nat) (w : World),
      w.db.tasks.records = pre ++ suf →
      (pre ++ suf).Pairwise (fun a b => a.id ≠ b.id) →
      suf.length ≤ fuel →
      pp < w.db.projects.records.length →
      w.loaded = true →
      ∃ w1, project_delete_loop env id pp fuel pre.length w = .ok w1 ∧
        Cascaded env id pp pre suf w w1 := by
  intro suf
  induction suf with
  | nil =>
    intro pre fuel w hrec _ _ _ _
    refine ⟨w, ?_, ?_⟩
    · unfold project_delete_loop
      simp [hrec]
    · constructor <;> simp [hrec, other_tasks, owned_tasks, dropTasks_zero, store_project_self]
  | cons t suf ih =>
    intro pre fuel w hrec hpw hfuel hpp hl
    obtain ⟨fuel, rfl⟩ : ∃ k, fuel = k + 1 := ⟨fuel - 1, by simp at hfuel; omega⟩
    have hget : w.db.tasks.records[pre.length]? = some t := by
      rw [hrec, List.getElem?_append_right (Nat.le_refl _)]
      simp
    rw [List.pairwise_append] at hpw
    obtain ⟨hpre, hsuf, hcross⟩ := hpw
    rw [List.pairwise_cons] at hsuf
    by_cases hown : t.project_id = id
    · obtain ⟨w1, hdel, htasks1, hproj1, hact1, htr1, hdisk1, hld1⟩ :=
        pit_task_delete_at env pp w pre t suf hrec (fun x hx => hcross x hx t (by simp)) hpp hl
      have hpw1 : (pre ++ suf).Pairwise (fun a b => a.id ≠ b.id) := by
        rw [List.pairwise_append]
        exact ⟨hpre, hsuf.2, fun a ha b hb => hcross a ha b (by simp [hb])⟩
      have hpp1 : pp < w1.db.projects.records.length := by
        rw [hproj1]
        simpa [Table.store] using hpp
      have hp1 : w1.project pp = (w.project pp).dropTasks 1 := by
        simp only [World.project, hproj1, Table.store]
        exact getD_set_self _ _ _ _ hpp
      obtain ⟨w2, hloop, hc⟩ :=
        ih pre fuel w1 (by rw [htasks1]) hpw1 (by simp at hfuel; omega) hpp1 (by rw [hld1, hl])
      have hne : owned_tasks id (t :: suf) ≠ [] := by simp [owned_tasks, hown]
      refine ⟨w2, ?_, ?_⟩
      · rw [project_delete_loop]
        simp only [hget, hown, if_true, hdel]
        exact hloop
      · constructor
        · simp [hc.tasks_records, other_tasks, hown]
        · rw [hc.tasks_current, htasks1]
          simp only [owned_tasks, hown, decide_True, List.filter_cons_of_pos, List.map_cons,
            List.mem_cons]
          by_cases hcur : w.db.tasks.current = t.id
          · simp [hcur]
          · simp only [hcur, if_false, false_or]
        · rw [hc.tasks_counter, htasks1]
        · rw [hc.projects, hproj1, hp1, Table.store_store, dropTasks_dropTasks]
          simp [owned_tasks, hown, Nat.add_comm]
        · rw [hc.actions, hact1, hp1]
          simp [owned_tasks, hown, Project.dropTasks]
        · rw [hc.trace, htr1]
          simp [owned_tasks, hown]
        · intro _
          by_cases hnil : owned_tasks id suf = []
          · rw [hc.unchanged hnil]
            exact hdisk1
          · exact hc.disk hnil
        · intro hnil
          exact absurd hnil hne
        · rw [hc.loaded, hld1]
    · have hrec1 : w.db.tasks.records = (pre ++ [t]) ++ suf := by simp [hrec]
      have hpw1 : ((pre ++ [t]) ++ suf).Pairwise (fun a b => a.id ≠ b.id) := by
        rw [List.append_assoc, List.pairwise_append]
        exact ⟨hpre, by simpa [List.pairwise_cons] using hsuf, hcross⟩
      obtain ⟨w2, hloop, hc⟩ :=
        ih (pre ++ [t]) fuel w hrec1 hpw1 (by simp at hfuel; omega) hpp hl
      have hsame : owned_tasks id (t :: suf) = owned_tasks id suf := by
        simp [owned_tasks, hown]
      refine ⟨w2, ?_, ?_⟩
      · rw [project_delete_loop]
        simp only [hget, hown, if_false]
        simpa using hloop
      · constructor
        · simp [hc.tasks_records, other_tasks, hown]
        · rw [hc.tasks_current, hsame]
        · exact hc.tasks_counter
        · rw [hc.projects, hsame]
        · rw [hc.actions, hsame]
        · rw [hc.trace, hsame]
        · rw [hsame]
          exact hc.disk
        · rw [hsame]
          exact hc.unchanged
        · exact hc.loaded

theorem getD_append_length {α : Type} (pre : List α) (r : α) (suf : List α) (d : α) :
    (pre ++ r :: suf).getD pre.length d = r := by
  rw [List.getD_eq_getElem?_getD, List.getElem?_append_right (Nat.le_refl _)]
  simp

theorem find_slot_some {α : Type} [HasId α] (id : Int) :
    ∀ (l : List α) (i : Nat), find_slot id l = some i →
      ∃ pre r suf, l = pre ++ r :: suf ∧ pre.length = i ∧ HasId.id r = id ∧
        ∀ x ∈ pre, HasId.id x ≠ id := by
  intro l
  induction l with
  | nil => intro i h; simp [find_slot] at h
  | cons a l ih =>
    intro i h
    by_cases ha : HasId.id a = id
    · simp [find_slot, ha] at h
      exact ⟨[], a, l, by simp, by simp [h], ha, by simp⟩
    · simp only [find_slot, ha, if_false, Option.map_eq_some'] at h
      obtain ⟨j, hj, rfl⟩ := h
      obtain ⟨pre, r, suf, hl, hlen, hr, hpre⟩ := ih j hj
      refine ⟨a :: pre, r, suf, by simp [hl], by simp [hlen], hr, ?_⟩
      intro x hx
      rcases List.mem_cons.mp hx with rfl | hx
      · exact ha
      · exact hpre x hx

theorem project_find_current_ok (id pid : Int) (pp : Nat) (w : World)
    (h : project_find_current id w = .ok (pid, pp)) :
    find_slot pid w.db.projects.records = some pp ∧ (w.project pp).id = pid ∧
      (id ≠ 0 → pid = id) ∧ (id = 0 → pid = w.db.projects.current ∧ pid ≠ 0) := by
  unfold project_find_current at h
  have key : ∀ (k : Int) (i : Nat), find_slot k w.db.projects.records = some i →
      (w.project i).id = k := by
    intro k i hk
    obtain ⟨pre, r, suf, hl, hlen, hr, _⟩ := find_slot_some k _ i hk
    have : w.db.projects.records.getD i default = r := by
      rw [hl, ← hlen]
      exact getD_append_length pre r suf default
    simp only [World.project, this]
    exact hr
  by_cases hid : id = 0
  · simp only [hid, ne_eq, not_true_eq_false, if_false] at h
    unfold pit_table_current at h
    by_cases hc : w.db.projects.current = 0
    · simp [hc, die] at h
    · simp only [hc, if_false, pit_table_find] at h
      cases hf : find_slot w.db.projects.current w.db.projects.records with
      | none => simp [hf, die] at h
      | some i =>
        simp only [hf, Except.ok.injEq, Prod.mk.injEq] at h
        obtain ⟨h1, rfl⟩ := h
        have hk := key _ _ hf
        rw [hk] at h1
        subst h1
        exact ⟨hf, hk, fun hne => absurd hid hne, fun _ => ⟨rfl, hc⟩⟩
  · simp only [ne_eq, hid, not_false_eq_true, if_true, pit_table_find] at h
    cases hf : find_slot id w.db.projects.records with
    | none => simp [hf, die] at h
    | some i =>
      simp only [hf, Except.ok.injEq, Prod.mk.injEq] at h
      obtain ⟨h1, rfl⟩ := h
      have hk := key _ _ hf
      rw [hk] at h1
      subst h1
      exact ⟨hf, hk, fun _ => rfl, fun h0 => absurd h0 hid⟩

theorem pit_db_load_is_loaded (w : World) : (pit_db_load w).loaded = true := by
  unfold pit_db_load
  split
  · assumption
  · rfl

theorem set_append_length {α : Type} (pre : List α) (r x : α) (suf : List α) :
    (pre ++ r :: suf).set pre.length x = pre ++ x :: suf := by
  induction pre with
  | nil => simp
  | cons a pre ih => simp [ih]

theorem eraseIdx_append_length {α : Type} (pre : List α) (r : α) (suf : List α) :
    (pre ++ r :: suf).eraseIdx pre.length = pre ++ suf := by
  rw [List.eraseIdx_append_of_length_le (Nat.le_refl _)]
  simp

theorem pit_table_delete_slot (t : Table Project) (pid : Int) (pp : Nat)
    (pre : List Project) (x : Project) (suf : List Project)
    (hrec : t.records = pre ++ x :: suf) (hlen : pre.length = pp) (hx : x.id = pid)
    (hpre : ∀ y ∈ pre, HasId.id y ≠ pid) :
    pit_table_delete t pid =
      some ({ records := t.records.eraseIdx pp,
              current := if t.current = pid then 0 else t.current,
              auto_increment := t.auto_increment }, x) := by
  have hid : HasId.id x = pid := hx
  have h := pit_table_delete_at t pre x suf hrec (by rw [hid]; exact hpre)
  rw [hid] at h
  rw [h, hrec, ← hlen, eraseIdx_append_length]

theorem project_delete_spec (env : Env) (w : World) (id pid : Int) (pp : Nat)
    (hfind : project_find_current id (pit_db_load w) = .ok (pid, pp))
    (hids : 0 < ((pit_db_load w).project pp).number_of_tasks →
      (pit_db_load w).db.tasks.records.Pairwise (fun a b => a.id ≠ b.id)) :
    ∃ wc,
      (if 0 < ((pit_db_load w).project pp).number_of_tasks then
         Cascaded env pid pp [] (pit_db_load w).db.tasks.records (pit_db_load w) wc
       else wc = pit_db_load w) ∧
      project_delete env id w = .ok (project_deleted pid pp wc) := by
  obtain ⟨hslot, hpid, -, -⟩ := project_find_current_ok id pid pp _ hfind
  obtain ⟨pre, r, suf, hl, hlen, hr, hpre⟩ := find_slot_some pid _ pp hslot
  have hpp : pp < (pit_db_load w).db.projects.records.length := by
    rw [hl, ← hlen]
    simp
  -- the world after the cascade, whichever branch is taken
  have hcas : ∃ wc,
      (if 0 < ((pit_db_load w).project pp).number_of_tasks then
         Cascaded env pid pp [] (pit_db_load w).db.tasks.records (pit_db_load w) wc
       else wc = pit_db_load w) ∧
      (if ((pit_db_load w).project pp).number_of_tasks > 0 then
         project_delete_loop env pid pp (pit_db_load w).db.tasks.records.length 0 (pit_db_load w)
       else .ok (pit_db_load w)) = .ok wc ∧
      ∃ x, wc.db.projects.records = pre ++ x :: suf ∧ x.id = pid := by
    by_cases hn : 0 < ((pit_db_load w).project pp).number_of_tasks
    · obtain ⟨wc, hloop, hc⟩ := project_delete_loop_spec env pid pp
        (pit_db_load w).db.tasks.records [] _ (pit_db_load w) (by simp) (by simpa using hids hn)
        (Nat.le_refl _) hpp (pit_db_load_is_loaded w)
      refine ⟨wc, by simp only [hn, if_true]; exact hc, ?_, ?_⟩
      · simp only [gt_iff_lt, hn, if_true]
        exact hloop
      · refine ⟨((pit_db_load w).project pp).dropTasks
          (owned_tasks pid (pit_db_load w).db.tasks.records).length, ?_, ?_⟩
        · rw [hc.projects]
          simp only [Table.store]
          rw [hl, ← hlen, set_append_length]
        · simp only [Project.dropTasks]
          exact hpid
    · refine ⟨pit_db_load w, by simp only [hn, if_false], by simp only [gt_iff_lt, hn, if_false],
        r, hl, hr⟩
  obtain ⟨wc, hc, hrun, x, hrecx, hx⟩ := hcas
  refine ⟨wc, hc, ?_⟩
  have hdel := pit_table_delete_slot wc.db.projects pid pp pre x suf hrecx hlen hx hpre
  unfold project_delete
  simp only [hfind, bind, Except.bind]
  by_cases hn : ((pit_db_load w).project pp).number_of_tasks > 0
  · simp only [hn, if_true] at hrun ⊢
    simp only [hrun, hdel]
    rfl
  · simp only [hn, if_false, Except.ok.injEq] at hrun ⊢
    subst hrun
    simp only [hdel]
    rfl

/-! ## Session and create lemmas -/

theorem pit_db_load_db_idem (w : World) : (pit_db_load (pit_db_load w)).db = (pit_db_load w).db := by
  unfold pit_db_load
  split <;> simp

theorem pit_db_load_disk (w : World) : (pit_db_load w).disk = w.disk := by
  unfold pit_db_load
  split <;> rfl

theorem pit_db_load_boot (d : Db) : (pit_db_load (World.boot d)).db = d := rfl

theorem strncpy_field_length (size : Nat) (s : String) :
    (strncpy_field size s).length = min (size - 1) (c_text s).length :=
  List.length_take _ _

theorem strncpy_field_of_fits (size : Nat) (s : String) (h : (c_text s).length ≤ size - 1) :
    strncpy_field size s = c_text s :=
  List.take_of_length_le h

theorem strncpy_field_ne_of_long (size : Nat) (s : String) (h : size - 1 < (c_text s).length) :
    strncpy_field size s ≠ c_text s := by
  intro heq
  have hl := strncpy_field_length size s
  rw [heq] at hl
  omega

/-- The unit of a field is the byte: five two-byte characters do not fit a field
of 8 bytes, of which 7 are stored, the last character cut in half. -/
theorem strncpy_field_counts_bytes :
    (c_text "ééééé").length = 10 ∧
    strncpy_field 8 "ééééé" = [0xC3, 0xA9, 0xC3, 0xA9, 0xC3, 0xA9, 0xC3] ∧
    strncpy_field 8 "ééééé" ≠ c_text "ééééé" := by
  decide

theorem c_text_append (a b : String) : c_text (a ++ b) = c_text a ++ c_text b := by
  simp [c_text, List.flatMap_append]

/-- Supporting fact for C1: a create whose name equals (by `strcmp`) the stored
name of some record dies with the duplicate-name message, leaving the tables in
memory as loaded and the persisted store untouched. -/
theorem project_create_duplicate (env : Env) (w : World) (n : String) (st : Option String)
    (h : ∃ p ∈ (pit_db_load w).db.projects.records, p.name = c_text n) :
    ∃ f, project_create env { name := some n, status := st } w = .error f ∧
      f.stop = Stop.died "project with the same name already exists" ∧
      f.world.db = (pit_db_load w).db ∧ f.world.disk = w.disk ∧
      Event.save ∉ f.world.trace.drop w.trace.length := by
  obtain ⟨p, hp, hn⟩ := h
  have hex : (pit_db_load (pit_db_load w)).db.projects.records.any
      (fun pp => pp.name == c_text n) = true := by
    rw [pit_db_load_db_idem, List.any_eq_true]
    exact ⟨p, hp, by simp [hn]⟩
  refine ⟨{ stop := Stop.died "project with the same name already exists",
            world := pit_db_load (pit_db_load w) }, ?_, rfl, pit_db_load_db_idem w, ?_, ?_⟩
  · simp only [project_create, project_already_exist, hex, if_true, die]
  · simp only [pit_db_load_disk]
  · have ht : (pit_db_load (pit_db_load w)).trace = w.trace ++ [Event.load, Event.load] := by
      unfold pit_db_load
      split <;> simp
    rw [ht, List.drop_left]
    decide

theorem project_create_ok (env : Env) (w : World) (n : String) (st : Option String)
    (hfresh : ∀ p ∈ (pit_db_load w).db.projects.records, p.name ≠ c_text n) :
    project_create env { name := some n, status := st } w =
      .ok (project_created env n st (pit_db_load (pit_db_load w))) := by
  have hany : (pit_db_load (pit_db_load w)).db.projects.records.any
      (fun pp => pp.name == c_text n) = false := by
    rw [pit_db_load_db_idem, List.any_eq_false]
    intro p hp
    simpa using hfresh p hp
  have hp : ∀ (l : List Project) (x : Project), (l ++ [x]).getD l.length default = x :=
    fun l x => getD_append_length l x [] default
  simp only [project_create, project_already_exist, hany, pit_table_insert, World.project,
    World.setProjects, pit_table_mark, hp]
  rfl


/-! ## Update lemmas -/

theorem project_find_current_slot (id pid : Int) (pp : Nat) (w : World)
    (h : project_find_current id w = .ok (pid, pp)) :
    pp < w.db.projects.records.length := by
  obtain ⟨hslot, -, -, -⟩ := project_find_current_ok id pid pp w h
  obtain ⟨pre, r, suf, hl, hlen, -, -⟩ := find_slot_some pid _ pp hslot
  rw [hl, ← hlen]
  simp

theorem project_update_ok (env : Env) (w : World) (id pid : Int) (pp : Nat) (po : Options)
    (hfind : project_find_current id (pit_db_load w) = .ok (pid, pp)) :
    project_update env id po w = .ok (project_updated env po pp (pit_db_load w)) := by
  have hpp := project_find_current_slot id pid pp _ hfind
  have hget : ∀ (x : Project),
      ((pit_db_load w).db.projects.records.set pp x).getD pp default = x :=
    fun x => getD_set_self _ _ _ _ hpp
  have hget2 : ∀ (x y : Project),
      (((pit_db_load w).db.projects.records.set pp x).set pp y).getD pp default = y :=
    fun x y => getD_set_self _ _ _ _ (by simpa using hpp)
  have hget3 : ∀ (x y z : Project),
      ((((pit_db_load w).db.projects.records.set pp x).set pp y).set pp z).getD pp default = z :=
    fun x y z => getD_set_self _ _ _ _ (by simpa using hpp)
  unfold project_update
  simp only [hfind, bind, Except.bind]
  rcases po with ⟨_ | n, _ | s⟩ <;>
    simp only [World.project, World.setProjects, Table.store, pit_table_mark, hget, hget2, hget3,
      List.set_set, project_updated, updated_record]

theorem project_updated_record (env : Env) (po : Options) (pp : Nat) (w0 : World)
    (hpp : pp < w0.db.projects.records.length) :
    (project_updated env po pp w0).project pp = updated_record env po (w0.project pp) := by
  show ((w0.db.projects.records.set pp (updated_record env po (w0.project pp))).getD pp default)
    = _
  exact getD_set_self _ _ _ _ hpp

/-! ## Listing lemmas -/

theorem stristr_spec (haystack : Bytes) (needle : String) :
    stristr haystack needle = true ↔
      ((c_text needle).map byte_lower) <:+: (haystack.map byte_lower) := by
  unfold stristr
  rw [List.any_eq_true]
  constructor
  · rintro ⟨t, ht, hp⟩
    rw [List.mem_tails] at ht
    rw [ List.isPrefixOf_iff_prefix] at hp
    exact List.IsInfix.trans hp.isInfix ht.isInfix
  · intro h
    obtain ⟨t, hp, hs⟩ := List.infix_iff_prefix_suffix.mp h
    exact ⟨t, (List.mem_tails _ _).mpr hs, List.isPrefixOf_iff_prefix.mpr hp⟩

theorem project_list_skips_eq (po : Options) (p : Project) :
    project_list_skips po p = !project_list_passes po p := by
  unfold project_list_skips project_list_passes
  cases po.name <;> cases po.status <;> simp

theorem project_list_loop_spec (po : Options) :
    ∀ (l : List Project) (w : World),
      project_list_loop po l w =
        { w with trace := w.trace ++ (l.filter (project_list_passes po)).map Event.format } := by
  intro l
  induction l with
  | nil => intro w; simp [project_list_loop]
  | cons p l ih =>
    intro w
    by_cases hp : project_list_passes po p = true
    · simp [project_list_loop, project_list_skips_eq, hp, ih, World.emit]
    · simp only [Bool.not_eq_true] at hp
      simp [project_list_loop, project_list_skips_eq, hp, ih]

theorem formatted_append (a b : List Event) : formatted (a ++ b) = formatted a ++ formatted b := by
  induction a with
  | nil => rfl
  | cons e a ih => cases e <;> simp [formatted, ih]

theorem formatted_map_format (l : List Project) : formatted (l.map Event.format) = l := by
  induction l with
  | nil => rfl
  | cons p l ih => simp [formatted, ih]

/-! ## Resolution lemmas -/

theorem find_slot_of_mem {α : Type} [HasId α] (id : Int) :
    ∀ (l : List α), (∃ r ∈ l, HasId.id r = id) → ∃ i, find_slot id l = some i := by
  intro l
  induction l with
  | nil => intro h; simp at h
  | cons a l ih =>
    intro h
    by_cases ha : HasId.id a = id
    · exact ⟨0, by simp [find_slot, ha]⟩
    · obtain ⟨r, hr, hid⟩ := h
      rcases List.mem_cons.mp hr with rfl | hr
      · exact absurd hid ha
      · obtain ⟨i, hi⟩ := ih ⟨r, hr, hid⟩
        exact ⟨i + 1, by simp [find_slot, ha, hi]⟩

theorem find_slot_none {α : Type} [HasId α] (id : Int) :
    ∀ (l : List α), (∀ r ∈ l, HasId.id r ≠ id) → find_slot id l = none := by
  intro l
  induction l with
  | nil => intro _; rfl
  | cons a l ih =>
    intro h
    have ha : HasId.id a ≠ id := h a (by simp)
    simp [find_slot, ha, ih (fun r hr => h r (by simp [hr]))]

theorem project_find_current_error (id : Int) (w : World) (f : Failure)
    (h : project_find_current id w = .error f) : f.world = w := by
  unfold project_find_current at h
  split at h
  · split at h
    · simp only [die, Except.error.injEq] at h
      rw [← h]
    · cases h
  · split at h
    · simp only [die, Except.error.injEq] at h
      rw [← h]
    · cases h

/-! ## Show lemmas -/

theorem pit_db_load_trace (w : World) : (pit_db_load w).trace = w.trace ++ [Event.load] := by
  unfold pit_db_load
  split <;> rfl

theorem project_show_ok (w : World) (id pid : Int) (pp : Nat)
    (hfind : project_find_current id (pit_db_load w) = .ok (pid, pp)) :
    project_show id w = .ok (project_shown pp (pit_db_load w)) := by
  simp only [project_show, hfind, bind, Except.bind]
  rfl

/-! ## Trace lemmas -/

theorem unsaved_of_load_failure (w : World) (f : Failure) (h : f.world = pit_db_load w) :
    Unsaved w f.world :=
  ⟨[Event.load], by rw [h, pit_db_load_trace], by decide, Or.inr rfl,
    by rw [h, pit_db_load_disk]⟩

theorem project_shown_saved (w : World) (pp : Nat) :
    Saved w (project_shown pp (pit_db_load w)) := by
  by_cases hn : ((pit_db_load w).project pp).number_of_tasks > 0
  · refine ⟨[Event.print (project_show_line ((pit_db_load w).project pp)),
      Event.task_list ((pit_db_load w).project pp).id], ?_, by simp, ?_⟩
    · simp [project_shown, hn, pit_db_save, World.emit, World.setProjects, pit_db_load_trace]
    · simp [project_shown, hn, pit_db_save]
  · refine ⟨[Event.print (project_show_line ((pit_db_load w).project pp))], ?_, by simp, ?_⟩
    · simp [project_shown, hn, pit_db_save, World.emit, World.setProjects, pit_db_load_trace]
    · simp [project_shown, hn, pit_db_save]

theorem project_show_disciplined (id : Int) (w : World) :
    Disciplined w (project_show id w) := by
  cases hfind : project_find_current id (pit_db_load w) with
  | error f =>
    have hrun : project_show id w = .error f := by
      simp only [project_show, hfind, bind, Except.bind]
    rw [hrun]
    exact unsaved_of_load_failure w f (project_find_current_error id _ f hfind)
  | ok v =>
    obtain ⟨pid, pp⟩ := v
    rw [project_show_ok w id pid pp hfind]
    exact project_shown_saved w pp

theorem project_update_disciplined (env : Env) (id : Int) (po : Options) (w : World) :
    Disciplined w (project_update env id po w) := by
  cases hfind : project_find_current id (pit_db_load w) with
  | error f =>
    have hrun : project_update env id po w = .error f := by
      simp only [project_update, hfind, bind, Except.bind]
    rw [hrun]
    exact unsaved_of_load_failure w f (project_find_current_error id _ f hfind)
  | ok v =>
    obtain ⟨pid, pp⟩ := v
    rw [project_update_ok env w id pid pp po hfind]
    refine ⟨[], ?_, by simp, rfl⟩
    simp [project_updated, pit_db_save, project_log_update, pit_action, World.setProjects,
      pit_db_load_trace]

theorem project_create_disciplined (env : Env) (po : Options) (w : World) :
    Disciplined w (project_create env po w) := by
  have ht2 : (pit_db_load (pit_db_load w)).trace = w.trace ++ [Event.load, Event.load] := by
    rw [pit_db_load_trace, pit_db_load_trace]
    simp
  rcases po with ⟨_ | n, st⟩
  · exact unsaved_of_load_failure w _ rfl
  · by_cases hex : (pit_db_load (pit_db_load w)).db.projects.records.any
        (fun pp => pp.name == c_text n) = true
    · have hrun : project_create env { name := some n, status := st } w =
          .error { stop := Stop.died "project with the same name already exists",
                   world := pit_db_load (pit_db_load w) } := by
        simp only [project_create, project_already_exist, hex, if_true, die]
      rw [hrun]
      exact ⟨[Event.load, Event.load], ht2, by decide, Or.inr rfl,
        by simp only [pit_db_load_disk]⟩
    · have hfresh : ∀ p ∈ (pit_db_load w).db.projects.records, p.name ≠ c_text n := by
        rw [pit_db_load_db_idem] at hex
        simpa using hex
      rw [project_create_ok env w n st hfresh]
      refine ⟨[Event.load], ?_, by decide, rfl⟩
      simp [project_created, pit_db_save, project_log_create, pit_action, World.setProjects, ht2]

theorem pit_task_delete_of_mem (env : Env) (pp : Nat) (w : World) (t : Task)
    (ht : t ∈ w.db.tasks.records) (hpp : pp < w.db.projects.records.length)
    (hl : w.loaded = true) :
    ∃ w1, pit_task_delete env t.id pp w = .ok w1 ∧
      w1.db.tasks.records.length + 1 = w.db.tasks.records.length ∧
      w1.db.projects = w.db.projects.store pp ((w.project pp).dropTasks 1) ∧
      w1.trace = w.trace ++ [Event.task_delete t.id, Event.load, Event.save] ∧
      w1.disk = w1.db ∧ w1.loaded = true := by
  obtain ⟨j, hj⟩ := find_slot_of_mem t.id w.db.tasks.records ⟨t, ht, rfl⟩
  obtain ⟨pre, r, suf, hrec, -, hr, hpre⟩ := find_slot_some t.id _ j hj
  have hrid : r.id = t.id := hr
  obtain ⟨w1, hdel, htasks, hproj, -, htr, hdisk, hld⟩ :=
    pit_task_delete_at env pp w pre r suf hrec (fun x hx => by rw [hrid]; exact hpre x hx) hpp hl
  rw [hrid] at hdel htr
  refine ⟨w1, hdel, ?_, hproj, htr, hdisk, by rw [hld, hl]⟩
  rw [htasks, hrec]
  simp only [List.length_append, List.length_cons]
  omega

theorem project_delete_loop_total (env : Env) (id : Int) (pp : Nat) :
    ∀ (fuel pt : Nat) (w : World), w.loaded = true → pp < w.db.projects.records.length →
      w.db.tasks.records.length - pt ≤ fuel →
      ∃ (w1 : World) (ds : List Int), project_delete_loop env id pp fuel pt w = .ok w1 ∧
        w1.trace = w.trace ++
          ds.flatMap (fun i => [Event.task_delete i, Event.load, Event.save]) ∧
        w1.db.projects = w.db.projects.store pp ((w.project pp).dropTasks ds.length) ∧
        w1.loaded = true ∧ (ds = [] → w1 = w) ∧ (ds ≠ [] → w1.disk = w1.db) := by
  intro fuel
  induction fuel with
  | zero =>
    intro pt w hl _ hfuel
    have hnone : w.db.tasks.records[pt]? = none := by
      rw [List.getElem?_eq_none_iff]
      omega
    refine ⟨w, [], ?_, by simp, by simp [dropTasks_zero, store_project_self], hl,
      fun _ => rfl, fun h => absurd rfl h⟩
    rw [project_delete_loop]
    simp only [hnone]
  | succ fuel ih =>
    intro pt w hl hpp hfuel
    cases hget : w.db.tasks.records[pt]? with
    | none =>
      refine ⟨w, [], ?_, by simp, by simp [dropTasks_zero, store_project_self], hl,
        fun _ => rfl, fun h => absurd rfl h⟩
      rw [project_delete_loop]
      simp only [hget]
    | some t =>
      have hlt : pt < w.db.tasks.records.length := by
        by_contra hge
        rw [List.getElem?_eq_none_iff.mpr (by omega)] at hget
        cases hget
      by_cases hown : t.project_id = id
      · obtain ⟨w1, hdel, hlen1, hproj1, htr1, hdisk1, hld1⟩ :=
          pit_task_delete_of_mem env pp w t (List.getElem?_mem hget) hpp hl
        have hpp1 : pp < w1.db.projects.records.length := by
          rw [hproj1]
          simpa [Table.store] using hpp
        have hp1 : w1.project pp = (w.project pp).dropTasks 1 := by
          simp only [World.project, hproj1, Table.store]
          exact getD_set_self _ _ _ _ hpp
        obtain ⟨w2, ds, hloop, htr2, hproj2, hld2, hnil2, hdisk2⟩ :=
          ih pt w1 hld1 hpp1 (by omega)
        refine ⟨w2, t.id :: ds, ?_, ?_, ?_, hld2, fun h => List.noConfusion h, fun _ => ?_⟩
        · rw [project_delete_loop]
          simp only [hget, hown, if_true, hdel]
          exact hloop
        · rw [htr2, htr1]
          simp
        · rw [hproj2, hproj1, hp1, Table.store_store, dropTasks_dropTasks]
          simp only [List.length_cons, Nat.add_comm]
        · by_cases hds : ds = []
          · rw [hnil2 hds]
            exact hdisk1
          · exact hdisk2 hds
      · obtain ⟨w2, ds, hloop, htr2, hproj2, hld2, hnil2, hdisk2⟩ :=
          ih (pt + 1) w hl hpp (by omega)
        refine ⟨w2, ds, ?_, htr2, hproj2, hld2, hnil2, hdisk2⟩
        rw [project_delete_loop]
        simp only [hget, hown, if_false]
        exact hloop

/-- Every outcome of project_delete: it dies at the resolution of its target, or
it succeeds after some task deletions, each with the load and the save of the
task subsystem, and ends with its own save. -/
theorem project_delete_outcome (env : Env) (id : Int) (w : World) :
    (∃ f, project_find_current id (pit_db_load w) = .error f ∧
      project_delete env id w = .error f) ∨
    (∃ (w1 : World) (ds : List Int), project_delete env id w = .ok w1 ∧
      w1.trace = w.trace ++ Event.load ::
        (ds.flatMap (fun i => [Event.task_delete i, Event.load, Event.save]) ++
          [Event.save]) ∧
      w1.disk = w1.db) := by
  cases hfind : project_find_current id (pit_db_load w) with
  | error f =>
    exact Or.inl ⟨f, rfl, by simp only [project_delete, hfind, bind, Except.bind]⟩
  | ok v =>
    obtain ⟨pid, pp⟩ := v
    right
    obtain ⟨hslot, hpid, -, -⟩ := project_find_current_ok id pid pp _ hfind
    obtain ⟨pre, r, suf, hl, hlen, hr, hpre⟩ := find_slot_some pid _ pp hslot
    have hpp : pp < (pit_db_load w).db.projects.records.length := by
      rw [hl, ← hlen]
      simp
    have hcas : ∃ (wc : World) (ds : List Int),
        (if ((pit_db_load w).project pp).number_of_tasks > 0 then
           project_delete_loop env pid pp (pit_db_load w).db.tasks.records.length 0
             (pit_db_load w)
         else .ok (pit_db_load w)) = .ok wc ∧
        wc.trace = w.trace ++ Event.load ::
          ds.flatMap (fun i => [Event.task_delete i, Event.load, Event.save]) ∧
        ∃ x, wc.db.projects.records = pre ++ x :: suf ∧ x.id = pid := by
      by_cases hn : ((pit_db_load w).project pp).number_of_tasks > 0
      · obtain ⟨wc, ds, hloop, htr, hproj, -, -, -⟩ := project_delete_loop_total env pid pp
          (pit_db_load w).db.tasks.records.length 0 (pit_db_load w)
          (pit_db_load_is_loaded w) hpp (by omega)
        refine ⟨wc, ds, by simp only [hn, if_true]; exact hloop, ?_,
          ((pit_db_load w).project pp).dropTasks ds.length, ?_, ?_⟩
        · rw [htr, pit_db_load_trace]
          simp
        · rw [hproj]
          simp only [Table.store]
          rw [hl, ← hlen, set_append_length]
        · simp only [Project.dropTasks]
          exact hpid
      · exact ⟨pit_db_load w, [], by simp only [hn, if_false],
          by rw [pit_db_load_trace]; simp, r, hl, hr⟩
    obtain ⟨wc, ds, hrun, htr, x, hrecx, hx⟩ := hcas
    have hdel := pit_table_delete_slot wc.db.projects pid pp pre x suf hrecx hlen hx hpre
    refine ⟨project_deleted pid pp wc, ds, ?_, ?_, rfl⟩
    · unfold project_delete
      simp only [hfind, bind, Except.bind]
      by_cases hn : ((pit_db_load w).project pp).number_of_tasks > 0
      · simp only [hn, if_true] at hrun ⊢
        simp only [hrun, hdel]
        rfl
      · simp only [hn, if_false, Except.ok.injEq] at hrun ⊢
        subst hrun
        simp only [hdel]
        rfl
    · simp [project_deleted, pit_db_save, project_log_delete, pit_action, World.setProjects,
        htr]

theorem project_list_unsaved (po : Options) (w : World) :
    ∃ w1, project_list po w = .ok w1 ∧ Unsaved w w1 ∧
      ∃ rest, w1.trace = w.trace ++ Event.load :: rest := by
  by_cases hlen : (pit_db_load w).db.projects.records.length > 0
  · have hrun : project_list po w =
        .ok ((project_list_loop po (pit_db_load w).db.projects.records
          ((pit_db_load w).emit
            (Event.format_initialize (pit_db_load w).db.projects.records.length))).emit
          Event.format_flush) := by
      simp only [project_list, hlen, if_true]
      rfl
    have htr : ((project_list_loop po (pit_db_load w).db.projects.records
          ((pit_db_load w).emit
            (Event.format_initialize (pit_db_load w).db.projects.records.length))).emit
          Event.format_flush).trace =
        w.trace ++ Event.load ::
          Event.format_initialize (pit_db_load w).db.projects.records.length ::
          (((pit_db_load w).db.projects.records.filter (project_list_passes po)).map
            Event.format ++ [Event.format_flush]) := by
      simp [project_list_loop_spec, World.emit, pit_db_load_trace]
    refine ⟨_, hrun, ⟨_, htr, by simp, Or.inr rfl, ?_⟩, _, htr⟩
    simp [project_list_loop_spec, World.emit, pit_db_load_disk]
  · have hrun : project_list po w = .ok (pit_db_load w) := by
      simp only [project_list, hlen, if_false]
    exact ⟨_, hrun, ⟨[Event.load], pit_db_load_trace w, by decide, Or.inr rfl,
      pit_db_load_disk w⟩, [], pit_db_load_trace w⟩

set_option smartUnfolding false in
theorem parse_loop_cons2 (tok value : String) (rest : List String) (po : Options) (w : World) :
    project_parse_options_loop (tok :: value :: rest) po w =
      (match pit_arg_option tok with
       | some 'n' => project_parse_options_loop rest { po with name := some value } w
       | some 's' => project_parse_options_loop rest { po with status := some value } w
       | _ => die ("invalid project option: " ++ tok) w) := by
  rfl

set_option smartUnfolding false in
theorem parse_loop_cons1 (tok : String) (po : Options) (w : World) :
    project_parse_options_loop [tok] po w =
      (match pit_arg_option tok with
       | some 'n' => die "missing project name" w
       | some 's' => die "missing project status" w
       | _ => die ("invalid project option: " ++ tok) w) := by
  rfl

theorem parse_loop_name (tok value : String) (rest : List String) (po : Options) (w : World)
    (hn : pit_arg_option tok = some 'n') :
    project_parse_options_loop (tok :: value :: rest) po w =
      project_parse_options_loop rest { po with name := some value } w := by
  rw [parse_loop_cons2, hn]
  rfl

theorem parse_loop_status (tok value : String) (rest : List String) (po : Options) (w : World)
    (hs : pit_arg_option tok = some 's') :
    project_parse_options_loop (tok :: value :: rest) po w =
      project_parse_options_loop rest { po with status := some value } w := by
  rw [parse_loop_cons2, hs]
  rfl

theorem parse_loop_invalid (tok : String) (rest : List String) (po : Options) (w : World)
    (hn : pit_arg_option tok ≠ some 'n') (hs : pit_arg_option tok ≠ some 's') :
    project_parse_options_loop (tok :: rest) po w =
      die ("invalid project option: " ++ tok) w := by
  cases rest with
  | nil =>
    rw [parse_loop_cons1]
    split
    · rename_i h; exact absurd h hn
    · rename_i h; exact absurd h hs
    · rfl
  | cons value rest =>
    rw [parse_loop_cons2]
    split
    · rename_i h; exact absurd h hn
    · rename_i h; exact absurd h hs
    · rfl

theorem project_parse_options_loop_error (l : List String) (po : Options) (w : World) :
    ∀ f, project_parse_options_loop l po w = .error f → f.world = w := by
  induction l, po, w using project_parse_options_loop.induct with
  | case1 po w => intro f h; cases h
  | case2 tok po w hn =>
    intro f h
    rw [parse_loop_cons1, hn] at h
    simp only [die, Except.error.injEq] at h
    rw [← h]
  | case3 tok po w hn value rest ih =>
    intro f h
    rw [parse_loop_name _ _ _ _ _ hn] at h
    exact ih f h
  | case4 tok po w hs =>
    intro f h
    rw [parse_loop_cons1, hs] at h
    simp only [die, Except.error.injEq] at h
    rw [← h]
  | case5 tok po w hs value rest ih =>
    intro f h
    rw [parse_loop_status _ _ _ _ _ hs] at h
    exact ih f h
  | case6 tok rest po w hn hs =>
    intro f h
    rw [parse_loop_invalid tok rest po w hn hs] at h
    simp only [die, Except.error.injEq] at h
    rw [← h]

/-- What pit_project can turn into: one of the five operations, or a death in
the starting world (before anything is loaded). -/
theorem pit_project_cases (env : Env) (argv : List String) (w : World) :
    (∃ po, pit_project env argv w = project_list po w) ∨
    (∃ n, pit_project env argv w = project_show n w) ∨
    (∃ po, pit_project env argv w = project_create env po w) ∨
    (∃ n po, pit_project env argv w = project_update env n po w) ∨
    (∃ n, pit_project env argv w = project_delete env n w) ∨
    (∃ f, pit_project env argv w = .error f ∧ f.world = w) := by
  unfold pit_project
  split
  · exact Or.inl ⟨_, rfl⟩
  · simp only
    split
    · exact Or.inr (Or.inl ⟨_, rfl⟩)
    · split
      · -- create
        cases hs : pit_arg_string argv[2]? "project name" w with
        | error f =>
          refine Or.inr (Or.inr (Or.inr (Or.inr (Or.inr ⟨f, by simp [bind, Except.bind], ?_⟩))))
          unfold pit_arg_string at hs
          split at hs
          · simp only [die, Except.error.injEq] at hs
            rw [← hs]
          · cases hs
        | ok name =>
          cases hp : project_parse_options argv 2 { Options.zero with name := some name } w with
          | error f =>
            exact Or.inr (Or.inr (Or.inr (Or.inr (Or.inr
              ⟨f, by simp [bind, Except.bind, hp],
                project_parse_options_loop_error _ _ _ f hp⟩))))
          | ok opt =>
            exact Or.inr (Or.inr (Or.inl ⟨opt, by simp [bind, Except.bind, hp]⟩))
      · -- edit
        cases hp : project_parse_options argv
            (if pit_arg_number argv[2]? = 0 then 1 else 2) Options.zero w with
        | error f =>
          exact Or.inr (Or.inr (Or.inr (Or.inr (Or.inr
            ⟨f, rfl, project_parse_options_loop_error _ _ _ f hp⟩))))
        | ok opt =>
          simp only [bind, Except.bind]
          split
          · exact Or.inr (Or.inr (Or.inr (Or.inr (Or.inr ⟨_, rfl, rfl⟩))))
          · exact Or.inr (Or.inr (Or.inr (Or.inl ⟨_, _, rfl⟩)))
      · exact Or.inr (Or.inr (Or.inr (Or.inr (Or.inl ⟨_, rfl⟩))))
      · -- query
        split
        · exact Or.inr (Or.inl ⟨_, rfl⟩)
        · cases hp : project_parse_options argv 1 Options.zero w with
          | error f =>
            exact Or.inr (Or.inr (Or.inr (Or.inr (Or.inr
              ⟨f, rfl, project_parse_options_loop_error _ _ _ f hp⟩))))
          | ok opt =>
            simp only [bind, Except.bind]
            split
            · exact Or.inr (Or.inl ⟨_, rfl⟩)
            · exact Or.inl ⟨_, rfl⟩
      · exact Or.inr (Or.inr (Or.inr (Or.inr (Or.inr ⟨_, rfl, rfl⟩))))

/-! ## Dispatch lemmas -/

/-- The option loop reads the world only to die in it: its result is an option
record or a message, the same in every world. -/
theorem parse_loop_uniform :
    ∀ (k : Nat) (l : List String), l.length ≤ k → ∀ po : Options,
      ∃ r : Except String Options, ∀ w : World,
        project_parse_options_loop l po w =
          (match r with
           | .ok o => .ok o
           | .error m => die m w) := by
  intro k
  induction k with
  | zero =>
    intro l hl po
    have : l = [] := List.eq_nil_of_length_eq_zero (by omega)
    subst this
    exact ⟨.ok po, fun w => rfl⟩
  | succ k ih =>
    intro l hl po
    match l, hl with
    | [], _ => exact ⟨.ok po, fun w => rfl⟩
    | [tok], _ =>
      by_cases hn : pit_arg_option tok = some 'n'
      · exact ⟨.error "missing project name", fun w => by rw [parse_loop_cons1, hn]; rfl⟩
      · by_cases hs : pit_arg_option tok = some 's'
        · exact ⟨.error "missing project status", fun w => by rw [parse_loop_cons1, hs]; rfl⟩
        · exact ⟨.error ("invalid project option: " ++ tok),
            fun w => parse_loop_invalid tok [] po w hn hs⟩
    | tok :: value :: rest, hl =>
      have hrest : rest.length ≤ k := by
        simp only [List.length_cons] at hl
        omega
      by_cases hn : pit_arg_option tok = some 'n'
      · obtain ⟨r, hr⟩ := ih rest hrest { po with name := some value }
        exact ⟨r, fun w => by rw [parse_loop_name _ _ _ _ _ hn, hr w]⟩
      · by_cases hs : pit_arg_option tok = some 's'
        · obtain ⟨r, hr⟩ := ih rest hrest { po with status := some value }
          exact ⟨r, fun w => by rw [parse_loop_status _ _ _ _ _ hs, hr w]⟩
        · exact ⟨.error ("invalid project option: " ++ tok),
            fun w => parse_loop_invalid tok (value :: rest) po w hn hs⟩

/-- Dispatch does not depend on the world: every command line stands for one
command, carried out in whatever world the process starts in. -/
theorem pit_project_command (env : Env) (argv : List String) :
    ∃ c : Command, ∀ w : World, pit_project env argv w = run_command env c w := by
  cases h1 : argv[1]? with
  | none => exact ⟨.list Options.zero, fun w => by simp [pit_project, h1, run_command]⟩
  | some tok =>
    by_cases hnum : pit_arg_number (some tok) ≠ 0
    · exact ⟨.display (pit_arg_number (some tok)),
        fun w => by simp [pit_project, h1, hnum, if_true, run_command]⟩
    · by_cases hc : pit_arg_option tok = some 'c'
      · cases h2 : argv[2]? with
        | none =>
          exact ⟨.invalid "missing project name", fun w => by
            simp [pit_project, h1, hnum, if_false, hc, h2, pit_arg_string, bind,
              Except.bind, run_command, die]⟩
        | some name =>
          obtain ⟨r, hr⟩ := parse_loop_uniform _ (argv.drop (2 + 1)) (Nat.le_refl _)
            { Options.zero with name := some name }
          cases r with
          | error m =>
            exact ⟨.invalid m, fun w => by
              simp [pit_project, h1, hnum, if_false, hc, h2, pit_arg_string,
                project_parse_options, hr w, bind, Except.bind, run_command, die]⟩
          | ok o =>
            exact ⟨.create o, fun w => by
              simp [pit_project, h1, hnum, if_false, hc, h2, pit_arg_string,
                project_parse_options, hr w, bind, Except.bind, run_command]⟩
      · by_cases he : pit_arg_option tok = some 'e'
        · obtain ⟨r, hr⟩ := parse_loop_uniform _
            (argv.drop ((if pit_arg_number argv[2]? = 0 then 1 else 2) + 1)) (Nat.le_refl _)
            Options.zero
          cases r with
          | error m =>
            exact ⟨.invalid m, fun w => by
              simp [pit_project, h1, hnum, if_false, he, project_parse_options, hr w,
                bind, Except.bind, run_command, die]⟩
          | ok o =>
            by_cases hz : is_zero o = true
            · exact ⟨.invalid "nothing to update", fun w => by
                simp [pit_project, h1, hnum, if_false, he, project_parse_options, hr w,
                  bind, Except.bind, hz, if_true, run_command]⟩
            · exact ⟨.update (pit_arg_number argv[2]?) o, fun w => by
                simp [pit_project, h1, hnum, if_false, he, project_parse_options, hr w,
                  bind, Except.bind, hz, run_command]⟩
        · by_cases hd : pit_arg_option tok = some 'd'
          · exact ⟨.delete (pit_arg_number argv[2]?), fun w => by
              simp [pit_project, h1, hnum, if_false, hd, run_command]⟩
          · by_cases hq : pit_arg_option tok = some 'q'
            · by_cases hn2 : pit_arg_number argv[2]? ≠ 0
              · exact ⟨.display (pit_arg_number argv[2]?), fun w => by
                  simp [pit_project, h1, hnum, if_false, hq, hn2, if_true, run_command]⟩
              · obtain ⟨r, hr⟩ := parse_loop_uniform _ (argv.drop (1 + 1)) (Nat.le_refl _)
                  Options.zero
                cases r with
                | error m =>
                  exact ⟨.invalid m, fun w => by
                    simp [pit_project, h1, hnum, if_false, hq, hn2,
                      project_parse_options, hr w, bind, Except.bind, run_command, die]⟩
                | ok o =>
                  by_cases hz : is_zero o = true
                  · exact ⟨.display 0, fun w => by
                      simp [pit_project, h1, hnum, if_false, hq, hn2,
                        project_parse_options, hr w, bind, Except.bind, hz, if_true,
                        run_command]⟩
                  · exact ⟨.list o, fun w => by
                      simp [pit_project, h1, hnum, if_false, hq, hn2,
                        project_parse_options, hr w, bind, Except.bind, hz, run_command]⟩
            · refine ⟨.invalid ("invalid project option: " ++ tok), fun w => ?_⟩
              have hnum0 : pit_arg_number (some tok) = 0 := by simpa using hnum
              simp only [pit_project, h1, hnum0, ne_eq, not_true_eq_false, if_false, run_command]

/-! ## Option lemmas -/

theorem parse_loop_fields (bad : String) (rest : List String) (w : World)
    (hn : pit_arg_option bad ≠ some 'n') (hs : pit_arg_option bad ≠ some 's') :
    ∀ (fields : List (String × String)) (po : Options),
      (∀ p ∈ fields, is_field_option p.1) →
      project_parse_options_loop (field_tokens fields ++ bad :: rest) po w =
        die ("invalid project option: " ++ bad) w := by
  intro fields
  induction fields with
  | nil =>
    intro po _
    exact parse_loop_invalid bad rest po w hn hs
  | cons p fields ih =>
    intro po h
    obtain ⟨o, v⟩ := p
    have ho : is_field_option o := h (o, v) (by simp)
    have ih2 := fun po => ih po (fun q hq => h q (by simp [hq]))
    rcases ho with ho | ho
    · show project_parse_options_loop (o :: v :: (field_tokens fields ++ bad :: rest)) po w = _
      rw [parse_loop_name _ _ _ _ _ ho, ih2]
    · show project_parse_options_loop (o :: v :: (field_tokens fields ++ bad :: rest)) po w = _
      rw [parse_loop_status _ _ _ _ _ ho, ih2]

theorem pit_arg_number_of_field_option (tok : String) (h : is_field_option tok) :
    pit_arg_number (some tok) = 0 := by
  have key : ∀ c : Char, c.isDigit = false → pit_arg_option tok = some c →
      pit_arg_number (some tok) = 0 := by
    intro c hc ho
    unfold pit_arg_option at ho
    split at ho
    · rename_i c2 cs hdata
      simp only [Option.some.injEq] at ho
      subst ho
      simp [pit_arg_number, atoi, hdata, atoi_digits, hc]
    · cases ho
  rcases h with h | h
  · exact key 'n' (by decide) h
  · exact key 's' (by decide) h

theorem head_field_tokens_number (fields : List (String × String)) (bad : String)
    (rest : List String) (hfields : ∀ p ∈ fields, is_field_option p.1)
    (hbad : fields = [] → pit_arg_number (some bad) = 0) :
    pit_arg_number (field_tokens fields ++ bad :: rest)[0]? = 0 := by
  cases fields with
  | nil => simpa [field_tokens] using hbad rfl
  | cons p fields =>
    obtain ⟨o, v⟩ := p
    simpa [field_tokens] using pit_arg_number_of_field_option o (hfields (o, v) (by simp))

/-! ## Byte buffer lemmas -/

theorem takeWhile_append_stop {α : Type} (p : α → Bool) (l r : List α) (x : α)
    (hl : ∀ a ∈ l, p a = true) (hx : p x = false) :
    (l ++ x :: r).takeWhile p = l := by
  induction l with
  | nil => simp [List.takeWhile, hx]
  | cons a l ih =>
    have ha : p a = true := hl a (by simp)
    simp [List.takeWhile, ha, ih (fun b hb => hl b (by simp [hb]))]

theorem drop_last_of_terminated (size : Nat) (buf : Bytes)
    (h : terminated_field size buf) : buf.drop (size - 1) = [NUL] := by
  obtain ⟨hpos, hlen, hlast⟩ := h
  have hlt : size - 1 < buf.length := by omega
  rw [List.getElem?_eq_getElem hlt] at hlast
  simp only [Option.some.injEq] at hlast
  rw [List.drop_eq_getElem_cons hlt, hlast]
  have : buf.drop (size - 1 + 1) = [] := by
    apply List.drop_of_length_le
    omega
  rw [this]

theorem zero_field_terminated (size : Nat) (h : 0 < size) :
    terminated_field size (List.replicate size NUL) := by
  refine ⟨h, by simp, ?_⟩
  rw [List.getElem?_replicate]
  simp
  omega

theorem c_strncpy_field (size : Nat) (buf : Bytes) (src : String)
    (hbuf : terminated_field size buf) (hsrc : NUL ∉ c_text src) :
    terminated_field size (c_strncpy buf (c_text src) (size - 1)) ∧
      c_string (c_strncpy buf (c_text src) (size - 1)) = strncpy_field size src := by
  have hdrop := drop_last_of_terminated size buf hbuf
  obtain ⟨hpos, hlen, -⟩ := hbuf
  have hshape : c_strncpy buf (c_text src) (size - 1) =
      (c_text src).take (size - 1) ++
        (List.replicate (size - 1 - (c_text src).length) NUL ++ [NUL]) := by
    simp only [c_strncpy, hdrop, List.append_assoc]
  have hlen2 : (c_strncpy buf (c_text src) (size - 1)).length = size := by
    rw [hshape]
    simp only [List.length_append, List.length_take, List.length_replicate, List.length_cons,
      List.length_nil]
    omega
  have hsplit : c_strncpy buf (c_text src) (size - 1) =
      ((c_text src).take (size - 1) ++ List.replicate (size - 1 - (c_text src).length) NUL) ++
        [NUL] := by
    rw [hshape, List.append_assoc]
  refine ⟨⟨hpos, hlen2, ?_⟩, ?_⟩
  · have hl : ((c_text src).take (size - 1) ++
        List.replicate (size - 1 - (c_text src).length) NUL).length = size - 1 := by
      simp only [List.length_append, List.length_take, List.length_replicate]
      omega
    rw [hsplit, List.getElem?_append_right (by rw [hl]), hl]
    simp
  · have hstop : ∃ r, List.replicate (size - 1 - (c_text src).length) NUL ++ [NUL] =
        NUL :: r := by
      cases size - 1 - (c_text src).length with
      | zero => exact ⟨[], rfl⟩
      | succ k => exact ⟨List.replicate k NUL ++ [NUL], rfl⟩
    obtain ⟨r, hr⟩ := hstop
    rw [hshape, hr]
    unfold c_string
    rw [takeWhile_append_stop _ _ _ _ _ (by simp)]
    · rfl
    · intro a ha
      have hmem : a ∈ c_text src := List.mem_of_mem_take ha
      simp only [ne_eq, decide_eq_true_eq]
      intro h
      exact hsrc (h ▸ hmem)

theorem eraseIdx_set_same {α : Type} (l : List α) (i : Nat) (x : α) :
    (l.set i x).eraseIdx i = l.eraseIdx i := by
  induction l generalizing i with
  | nil => rfl
  | cons a l ih =>
    cases i with
    | zero => rfl
    | succ i => simp [ih]

theorem task_deletions_cascade (ts : List Task) :
    task_deletions
      (Event.load :: (ts.flatMap (fun t => [Event.task_delete t.id, Event.load, Event.save]) ++
        [Event.save])) = ts.map (fun t => t.id) := by
  show task_deletions
      (ts.flatMap (fun t => [Event.task_delete t.id, Event.load, Event.save]) ++ [Event.save])
    = _
  induction ts with
  | nil => rfl
  | cons t ts ih =>
    show task_deletions (Event.task_delete t.id :: Event.load :: Event.save ::
      (ts.flatMap (fun t => [Event.task_delete t.id, Event.load, Event.save]) ++
        [Event.save])) = _
    simp only [task_deletions, ih, List.map_cons]

/-- Every operation works on the tables as loaded: started in two worlds that
load to the same world, it has the same outcome.  Nothing is read from, or
written to, the tables in memory before the load. -/
theorem operations_load_first (env : Env) (id : Int) (po : Options) (w w2 : World)
    (h : pit_db_load w2 = pit_db_load w) :
    project_list po w2 = project_list po w ∧
    project_show id w2 = project_show id w ∧
    project_create env po w2 = project_create env po w ∧
    project_update env id po w2 = project_update env id po w ∧
    project_delete env id w2 = project_delete env id w := by
  refine ⟨?_, ?_, ?_, ?_, ?_⟩
  · simp only [project_list, h]
  · simp only [project_show, h]
  · simp only [project_create, h]
  · simp only [project_update, h]
  · simp only [project_delete, h]

theorem pit_project_load_first (env : Env) (argv : List String) (w w2 : World)
    (h : pit_db_load w2 = pit_db_load w) :
    pit_project env argv w2 = pit_project env argv w ∨
    ∃ m, pit_project env argv w = die m w ∧ pit_project env argv w2 = die m w2 := by
  obtain ⟨c, hc⟩ := pit_project_command env argv
  rw [hc w, hc w2]
  cases c with
  | list po => exact Or.inl (operations_load_first env 0 po w w2 h).1
  | display id => exact Or.inl (operations_load_first env id Options.zero w w2 h).2.1
  | create po => exact Or.inl (operations_load_first env 0 po w w2 h).2.2.1
  | update id po => exact Or.inl (operations_load_first env id po w w2 h).2.2.2.1
  | delete id => exact Or.inl (operations_load_first env id Options.zero w w2 h).2.2.2.2
  | invalid m => exact Or.inr ⟨m, rfl, rfl⟩

theorem project_delete_cascade_saved (env : Env) (id : Int) (w : World) :
    (∀ w1, project_delete env id w = .ok w1 → Cascade_saved w w1) ∧
    (∀ f, project_delete env id w = .error f → Unsaved w f.world) := by
  rcases project_delete_outcome env id w with ⟨f, hfind, hrun⟩ | ⟨w1, ds, hrun, htr, hdisk⟩
  · refine ⟨fun w1 h => ?_, fun f2 h => ?_⟩
    · rw [hrun] at h
      cases h
    · rw [hrun] at h
      cases h
      exact unsaved_of_load_failure w f (project_find_current_error id _ f hfind)
  · refine ⟨fun w2 h => ?_, fun f h => ?_⟩
    · rw [hrun] at h
      cases h
      exact ⟨ds, htr, hdisk⟩
    · rw [hrun] at h
      cases h

theorem cascade_trace_deletions (ds : List Int) :
    task_deletions
      (Event.load :: (ds.flatMap (fun i => [Event.task_delete i, Event.load, Event.save]) ++
        [Event.save])) = ds := by
  show task_deletions
      (ds.flatMap (fun i => [Event.task_delete i, Event.load, Event.save]) ++ [Event.save])
    = _
  induction ds with
  | nil => rfl
  | cons d ds ih =>
    show task_deletions (Event.task_delete d :: Event.load :: Event.save ::
      (ds.flatMap (fun i => [Event.task_delete i, Event.load, Event.save]) ++
        [Event.save])) = _
    simp only [task_deletions, ih]

theorem cascade_trace_saves (ds : List Int) :
    (Event.load :: (ds.flatMap (fun i => [Event.task_delete i, Event.load, Event.save]) ++
        [Event.save])).count Event.save = ds.length + 1 := by
  have key : (ds.flatMap (fun i => [Event.task_delete i, Event.load, Event.save]) ++
        [Event.save]).count Event.save = ds.length + 1 := by
    induction ds with
    | nil => rfl
    | cons d ds ih =>
      show (Event.task_delete d :: Event.load :: Event.save ::
        (ds.flatMap (fun i => [Event.task_delete i, Event.load, Event.save]) ++
          [Event.save])).count Event.save = _
      rw [List.count_cons_of_ne (by simp), List.count_cons_of_ne (by simp),
        List.count_cons_self, ih]
      rfl
  rw [List.count_cons_of_ne (by simp), key]

/-! ## The claims -/

/-- C1 (failing input): a name that does not fit the name field is stored
truncated, the duplicate scan compares stored names with the full name, and so
the second create of the same name is accepted; the table then holds two records
with the same stored name. -/
theorem C1_long_name_created_twice (env : Env) (n : String) (st : Option String)
    (hlong : env.name_size - 1 < (c_text n).length) :
    ∃ w1 w2,
      project_create env { name := some n, status := st } (World.boot Db.empty) = .ok w1 ∧
      project_create env { name := some n, status := st } (World.boot w1.disk) = .ok w2 ∧
      w2.disk.projects.records.map (fun p => p.name) =
        [strncpy_field env.name_size n, strncpy_field env.name_size n] := by
  have h1 := project_create_ok env (World.boot Db.empty) n st (by
    intro p hp
    simp [pit_db_load_boot, Db.empty] at hp)
  have hne := strncpy_field_ne_of_long _ _ hlong
  have h2 := project_create_ok env
    (World.boot (project_created env n st (pit_db_load (pit_db_load (World.boot Db.empty)))).disk)
    n st (by
      intro p hp
      rw [pit_db_load_boot] at hp
      have hrec : (project_created env n st
          (pit_db_load (pit_db_load (World.boot Db.empty)))).disk.projects.records =
          [created_record env n st Db.empty.projects] := rfl
      rw [hrec, List.mem_singleton] at hp
      rw [hp]
      exact hne)
  exact ⟨_, _, h1, h2, rfl⟩

theorem C1_long_name_created_twice_witness :
    ∃ w1 w2,
      project_create env0 { name := some "AlphaBetaGamma", status := none }
        (World.boot Db.empty) = .ok w1 ∧
      project_create env0 { name := some "AlphaBetaGamma", status := none }
        (World.boot w1.disk) = .ok w2 ∧
      w2.disk.projects.records.map (fun p => p.name) =
        [strncpy_field env0.name_size "AlphaBetaGamma",
         strncpy_field env0.name_size "AlphaBetaGamma"] :=
  C1_long_name_created_twice env0 "AlphaBetaGamma" none (by decide)

/-- C2: cascade correctness.  When the target project records N tasks and owns
exactly N records of the task table (task ids pairwise distinct, as the table
assigns them), project delete succeeds, calls the task deletion once for each
owned task, in table order and for no other task (N calls, no id twice), and the
task table afterwards, in memory and as saved, is the old one without the owned
tasks: no record with the deleted project_id remains. -/
theorem C2_cascade_correctness (env : Env) (w : World) (id pid : Int) (pp N : Nat)
    (hfind : project_find_current id (pit_db_load w) = .ok (pid, pp))
    (hcount : ((pit_db_load w).project pp).number_of_tasks = N)
    (howned : (owned_tasks pid (pit_db_load w).db.tasks.records).length = N)
    (hids : ((pit_db_load w).db.tasks.records.map (fun t => t.id)).Nodup) :
    ∃ w1, project_delete env id w = .ok w1 ∧
      w1.trace = w.trace ++ Event.load ::
        ((owned_tasks pid (pit_db_load w).db.tasks.records).flatMap
          (fun t => [Event.task_delete t.id, Event.load, Event.save]) ++ [Event.save]) ∧
      task_deletions (w1.trace.drop w.trace.length) =
        (owned_tasks pid (pit_db_load w).db.tasks.records).map (fun t => t.id) ∧
      ((owned_tasks pid (pit_db_load w).db.tasks.records).map (fun t => t.id)).length = N ∧
      ((owned_tasks pid (pit_db_load w).db.tasks.records).map (fun t => t.id)).Nodup ∧
      w1.db.tasks.records = other_tasks pid (pit_db_load w).db.tasks.records ∧
      (∀ t ∈ w1.db.tasks.records, t.project_id ≠ pid) ∧
      (∀ t ∈ w1.disk.tasks.records, t.project_id ≠ pid) := by
  have hpw : (pit_db_load w).db.tasks.records.Pairwise (fun a b => a.id ≠ b.id) := by
    have := hids
    rw [List.Nodup, List.pairwise_map] at this
    exact this
  obtain ⟨wc, hc, hrun⟩ := project_delete_spec env w id pid pp hfind (fun _ => hpw)
  have htrace0 : (pit_db_load w).trace = w.trace ++ [Event.load] := by
    unfold pit_db_load
    split <;> rfl
  have hnodup : ((owned_tasks pid (pit_db_load w).db.tasks.records).map (fun t => t.id)).Nodup :=
    (hids.sublist ((List.filter_sublist _).map _))
  have hmem : ∀ t ∈ other_tasks pid (pit_db_load w).db.tasks.records, t.project_id ≠ pid := by
    intro t ht
    simpa using (List.mem_filter.mp ht).2
  have key : wc.db.tasks.records = other_tasks pid (pit_db_load w).db.tasks.records ∧
      wc.trace = w.trace ++ Event.load ::
        ((owned_tasks pid (pit_db_load w).db.tasks.records).flatMap
          (fun t => [Event.task_delete t.id, Event.load, Event.save])) := by
    by_cases hn : 0 < ((pit_db_load w).project pp).number_of_tasks
    · simp only [hn, if_true] at hc
      refine ⟨by simpa using hc.tasks_records, ?_⟩
      rw [hc.trace, htrace0]
      simp
    · simp only [hn, if_false] at hc
      subst hc
      have hN : N = 0 := by omega
      subst hN
      have hnil : owned_tasks pid (pit_db_load w).db.tasks.records = [] :=
        List.length_eq_zero.mp howned
      refine ⟨?_, by rw [hnil, htrace0]; simp⟩
      unfold other_tasks
      unfold owned_tasks at hnil
      rw [List.filter_eq_nil_iff] at hnil
      symm
      rw [List.filter_eq_self]
      intro a ha
      simpa using hnil a ha
  have htr : (project_deleted pid pp wc).trace = w.trace ++ Event.load ::
      ((owned_tasks pid (pit_db_load w).db.tasks.records).flatMap
        (fun t => [Event.task_delete t.id, Event.load, Event.save]) ++ [Event.save]) := by
    simp only [project_deleted, pit_db_save, project_log_delete, pit_action, World.setProjects]
    rw [key.2]
    simp
  refine ⟨_, hrun, htr, ?_, by simpa using howned, hnodup, ?_, ?_, ?_⟩
  · rw [htr, List.drop_left]
    exact task_deletions_cascade _
  · exact key.1
  · intro t ht
    have : (project_deleted pid pp wc).db.tasks.records = wc.db.tasks.records := rfl
    rw [this, key.1] at ht
    exact hmem t ht
  · intro t ht
    have : (project_deleted pid pp wc).disk.tasks.records = wc.db.tasks.records := rfl
    rw [this, key.1] at ht
    exact hmem t ht

theorem C2_cascade_correctness_witness :
    ∃ w1, project_delete env0 1 (World.boot db0) = .ok w1 ∧
      w1.trace = (World.boot db0).trace ++ Event.load ::
        ((owned_tasks 1 (pit_db_load (World.boot db0)).db.tasks.records).flatMap
          (fun t => [Event.task_delete t.id, Event.load, Event.save]) ++ [Event.save]) ∧
      task_deletions (w1.trace.drop (World.boot db0).trace.length) =
        (owned_tasks 1 (pit_db_load (World.boot db0)).db.tasks.records).map (fun t => t.id) ∧
      ((owned_tasks 1 (pit_db_load (World.boot db0)).db.tasks.records).map
        (fun t => t.id)).length = 2 ∧
      ((owned_tasks 1 (pit_db_load (World.boot db0)).db.tasks.records).map
        (fun t => t.id)).Nodup ∧
      w1.db.tasks.records = other_tasks 1 (pit_db_load (World.boot db0)).db.tasks.records ∧
      (∀ t ∈ w1.db.tasks.records, t.project_id ≠ 1) ∧
      (∀ t ∈ w1.disk.tasks.records, t.project_id ≠ 1) :=
  C2_cascade_correctness env0 (World.boot db0) 1 1 0 2 (by rfl) (by decide) (by decide)
    (by decide)

/-- C3 (counterexample): an update that supplies only a status also rewrites the
username of the record: it is not true that every field except status is kept. -/
theorem C3_counterexample :
    ∃ w1, project_update env0 1 { name := none, status := some "done" } (World.boot db0) = .ok w1 ∧
      (w1.project 0).id = 1 ∧
      (w1.project 0).username ≠ ((pit_db_load (World.boot db0)).project 0).username :=
  ⟨_, rfl, by decide, by decide⟩

/-- C3 (amended): a successful update that supplies only a status leaves the id,
name, number_of_tasks and timestamps of the target record unchanged, writing only
its status and (always) its username; an update that supplies only a name likewise
leaves the status and those other fields unchanged. -/
theorem C3_partial_update (env : Env) (w : World) (id pid : Int) (pp : Nat) (s n : String)
    (hfind : project_find_current id (pit_db_load w) = .ok (pid, pp)) :
    (∃ w1, project_update env id { name := none, status := some s } w = .ok w1 ∧
      w1.project pp =
        { (pit_db_load w).project pp with
          status := strncpy_field env.status_size s,
          username := strncpy_field env.username_size env.current_user }) ∧
    (∃ w2, project_update env id { name := some n, status := none } w = .ok w2 ∧
      w2.project pp =
        { (pit_db_load w).project pp with
          name := strncpy_field env.name_size n,
          username := strncpy_field env.username_size env.current_user }) := by
  have hpp := project_find_current_slot id pid pp _ hfind
  refine ⟨⟨_, project_update_ok env w id pid pp _ hfind, ?_⟩,
          ⟨_, project_update_ok env w id pid pp _ hfind, ?_⟩⟩
  · rw [project_updated_record env _ pp _ hpp]
    rfl
  · rw [project_updated_record env _ pp _ hpp]
    rfl

theorem C3_partial_update_witness :
    (∃ w1, project_update env0 1 { name := none, status := some "done" } (World.boot db0)
        = .ok w1 ∧
      w1.project 0 =
        { (pit_db_load (World.boot db0)).project 0 with
          status := strncpy_field env0.status_size "done",
          username := strncpy_field env0.username_size env0.current_user }) ∧
    (∃ w2, project_update env0 1 { name := some "Gamma", status := none } (World.boot db0)
        = .ok w2 ∧
      w2.project 0 =
        { (pit_db_load (World.boot db0)).project 0 with
          name := strncpy_field env0.name_size "Gamma",
          username := strncpy_field env0.username_size env0.current_user }) :=
  C3_partial_update env0 (World.boot db0) 1 1 0 "done" "Gamma" (by rfl)

/-- C4: `project -e` and `project -e <number>` with no -n and no -s die with
"nothing to update" before project_update is entered: the world at the point of
death is the world the command started in (nothing loaded, written, marked,
logged or saved). -/
theorem C4_noop_rejected (env : Env) (w : World) (argv : List String)
    (h : argv = ["project", "-e"] ∨
      ∃ tok, argv = ["project", "-e", tok] ∧ pit_arg_number (some tok) ≠ 0) :
    pit_project env argv w = .error { stop := Stop.died "nothing to update", world := w } := by
  have he : pit_arg_number (some "-e") = 0 := by decide
  have ho : pit_arg_option "-e" = some 'e' := by decide
  rcases h with rfl | ⟨tok, rfl, hnum⟩
  · rfl
  · simp only [pit_project, List.getElem?_cons_succ, List.getElem?_cons_zero, he, ne_eq,
      not_true_eq_false, if_false, ho, hnum, project_parse_options, List.drop_succ_cons,
      List.drop_zero, project_parse_options_loop, bind, Except.bind, is_zero, Options.zero,
      Option.isNone_none, Bool.and_self, if_true, die]

theorem C4_noop_rejected_witness :
    pit_project env0 ["project", "-e", "7"] (World.boot db0) =
      .error { stop := Stop.died "nothing to update", world := World.boot db0 } :=
  C4_noop_rejected env0 (World.boot db0) ["project", "-e", "7"]
    (Or.inr ⟨"7", rfl, by decide⟩)

/-- C5 (failing input): project_update performs no duplicate scan; renaming
project 2 to the name of project 1 succeeds and leaves two records named
`Alpha` in a table whose names were pairwise distinct. -/
theorem C5_update_duplicates_name :
    ((pit_db_load (World.boot db0)).db.projects.records.map (fun p => p.name)).Nodup ∧
    ∃ w1, project_update env0 2 { name := some "Alpha", status := none } (World.boot db0)
        = .ok w1 ∧
      w1.db.projects.records.map (fun p => p.name) = [c_text "Alpha", c_text "Alpha"] ∧
      w1.disk.projects.records.map (fun p => p.name) = [c_text "Alpha", c_text "Alpha"] :=
  ⟨by decide, _, rfl, by decide, by decide⟩

/-- C6: whenever project_delete succeeds, the current mark of the projects table
is 0 afterwards, in memory and in the saved store, and the mark resolves to no
record. -/
theorem C6_current_mark_cleared (env : Env) (w w1 : World) (id : Int)
    (h : project_delete env id w = .ok w1) :
    w1.db.projects.current = 0 ∧ w1.disk.projects.current = 0 ∧
      pit_table_current w1.db.projects = none ∧ pit_table_current w1.disk.projects = none := by
  have tail : ∀ (v : World) (pid : Int) (pp : Nat),
      (match pit_table_delete v.db.projects pid with
        | some (t, _) =>
          Except.ok
            (pit_db_save
              (project_log_delete pid (v.project pp).name (v.project pp).number_of_tasks
                ((v.setProjects t).setProjects (pit_table_mark (v.setProjects t).db.projects 0))))
        | none => die "could not delete the project" v) = Except.ok w1 →
      w1.db.projects.current = 0 ∧ w1.disk.projects.current = 0 := by
    intro v pid pp hv
    split at hv
    · simp only [Except.ok.injEq] at hv
      subst hv
      exact ⟨rfl, rfl⟩
    · simp [die] at hv
  have key : w1.db.projects.current = 0 ∧ w1.disk.projects.current = 0 := by
    unfold project_delete at h
    simp only [bind, Except.bind] at h
    split at h
    · cases h
    · split at h
      · split at h
        · cases h
        · exact tail _ _ _ h
      · exact tail _ _ _ h
  exact ⟨key.1, key.2, by simp [pit_table_current, key.1], by simp [pit_table_current, key.2]⟩

theorem C6_current_mark_cleared_witness :
    ∃ w1, project_delete env0 2 (World.boot db0) = .ok w1 ∧
      (pit_db_load (World.boot db0)).db.projects.current = 2 ∧
      w1.db.projects.current = 0 ∧ w1.disk.projects.current = 0 ∧
      pit_table_current w1.db.projects = none ∧ pit_table_current w1.disk.projects = none :=
  ⟨_, rfl, by decide, C6_current_mark_cleared env0 (World.boot db0) _ 2 rfl⟩

/-- C7 (counterexample): an update that supplies only a status logs the unchanged
name of the project in front of the parenthesised list. -/
theorem C7_counterexample :
    ∃ w1, project_update env0 1 { name := none, status := some "done" } (World.boot db0)
        = .ok w1 ∧
      w1.db.actions =
        [{ project_id := 1, task_id := 0,
           message := c_text "updated project 1: Alpha (status: done)" }] ∧
      w1.db.actions ≠
        [{ project_id := 1, task_id := 0,
           message := c_text "updated project 1: (status: done)" }] :=
  ⟨_, rfl, by decide, by decide⟩

/-- C7 (amended): every successful project update with at least one of name and
status supplied appends exactly one Action Log entry, with project_id the
target's id and task_id 0.  Its message is `updated project <id>: (name: X,
status: Y)` when both are supplied and `updated project <id>: (name: X)` when only
the name is, X and Y being the values now stored; when only the status is supplied
the message is `updated project <id>: <name> (status: Y)`, where `<name>` is the
unchanged name of the project. -/
theorem C7_update_log (env : Env) (w : World) (id pid : Int) (pp : Nat) (n s : String)
    (hfind : project_find_current id (pit_db_load w) = .ok (pid, pp)) :
    (∃ w1, project_update env id { name := some n, status := some s } w = .ok w1 ∧
      w1.db.actions = (pit_db_load w).db.actions ++
        [{ project_id := pid, task_id := 0,
           message := c_text ("updated project " ++ fmt_d pid ++ ": (name: ") ++
             strncpy_field env.name_size n ++ c_text ", status: " ++
             strncpy_field env.status_size s ++ c_text ")" }]) ∧
    (∃ w2, project_update env id { name := some n, status := none } w = .ok w2 ∧
      w2.db.actions = (pit_db_load w).db.actions ++
        [{ project_id := pid, task_id := 0,
           message := c_text ("updated project " ++ fmt_d pid ++ ": (name: ") ++
             strncpy_field env.name_size n ++ c_text ")" }]) ∧
    (∃ w3, project_update env id { name := none, status := some s } w = .ok w3 ∧
      w3.db.actions = (pit_db_load w).db.actions ++
        [{ project_id := pid, task_id := 0,
           message := c_text ("updated project " ++ fmt_d pid ++ ": ") ++
             ((pit_db_load w).project pp).name ++ c_text " (status: " ++
             strncpy_field env.status_size s ++ c_text ")" }]) := by
  obtain ⟨-, hpid, -, -⟩ := project_find_current_ok id pid pp _ hfind
  refine ⟨⟨_, project_update_ok env w id pid pp _ hfind, ?_⟩,
          ⟨_, project_update_ok env w id pid pp _ hfind, ?_⟩,
          ⟨_, project_update_ok env w id pid pp _ hfind, ?_⟩⟩
  · have h1 : c_text ": (name: " = c_text ":" ++ c_text " (name: " := by decide
    simp [project_updated, pit_db_save, project_log_update, pit_action, World.setProjects,
      updated_record, hpid, c_text_append, h1]
  · have h1 : c_text ": (name: " = c_text ":" ++ c_text " (name: " := by decide
    simp [project_updated, pit_db_save, project_log_update, pit_action, World.setProjects,
      updated_record, hpid, c_text_append, h1]
  · have h1 : c_text ": " = c_text ":" ++ c_text " " := by decide
    have h2 : c_text " (status: " = c_text " (" ++ c_text "status: " := by decide
    simp [project_updated, pit_db_save, project_log_update, pit_action, World.setProjects,
      updated_record, hpid, c_text_append, h1, h2]

theorem C7_update_log_witness :
    (∃ w1, project_update env0 1 { name := some "Gamma", status := some "done" }
        (World.boot db0) = .ok w1 ∧
      w1.db.actions = (pit_db_load (World.boot db0)).db.actions ++
        [{ project_id := 1, task_id := 0,
           message := c_text ("updated project " ++ fmt_d 1 ++ ": (name: ") ++
             strncpy_field env0.name_size "Gamma" ++ c_text ", status: " ++
             strncpy_field env0.status_size "done" ++ c_text ")" }]) ∧
    (∃ w2, project_update env0 1 { name := some "Gamma", status := none }
        (World.boot db0) = .ok w2 ∧
      w2.db.actions = (pit_db_load (World.boot db0)).db.actions ++
        [{ project_id := 1, task_id := 0,
           message := c_text ("updated project " ++ fmt_d 1 ++ ": (name: ") ++
             strncpy_field env0.name_size "Gamma" ++ c_text ")" }]) ∧
    (∃ w3, project_update env0 1 { name := none, status := some "done" }
        (World.boot db0) = .ok w3 ∧
      w3.db.actions = (pit_db_load (World.boot db0)).db.actions ++
        [{ project_id := 1, task_id := 0,
           message := c_text ("updated project " ++ fmt_d 1 ++ ": ") ++
             ((pit_db_load (World.boot db0)).project 0).name ++ c_text " (status: " ++
             strncpy_field env0.status_size "done" ++ c_text ")" }]) :=
  C7_update_log env0 (World.boot db0) 1 1 0 "Gamma" "done" (by rfl)

/-- C8 (failing input): project 2 (`Beta`) has number_of_tasks 1 and owns task 2.
With a task subsystem that decrements the count, the count is read after the
cascade, so the project-level entry is `deleted project 2: Beta` and carries no
task count. -/
theorem C8_delete_log_omits_count :
    ((pit_db_load (World.boot db0)).project 1).name = c_text "Beta" ∧
    ((pit_db_load (World.boot db0)).project 1).number_of_tasks = 1 ∧
    owned_tasks 2 (pit_db_load (World.boot db0)).db.tasks.records =
      [{ id := 2, project_id := 2, details := "b" }] ∧
    ∃ w1, project_delete env0 2 (World.boot db0) = .ok w1 ∧
      w1.db.actions =
        [{ project_id := 2, task_id := 2, message := c_text "deleted task 2" },
         { project_id := 2, task_id := 0, message := c_text "deleted project 2: Beta" }] :=
  ⟨by decide, by decide, by decide, _, rfl, by decide⟩

/-- Supporting fact for C8, for every state: when the target has `N ≥ 1` tasks
recorded and owns exactly `N` task records, the project-level entry logged by a
delete is `deleted project <id>: <name>`, without any task count. -/
theorem project_delete_log_without_count (env : Env) (w : World) (id pid : Int) (pp N : Nat)
    (hfind : project_find_current id (pit_db_load w) = .ok (pid, pp))
    (hN : 0 < N)
    (hcount : ((pit_db_load w).project pp).number_of_tasks = N)
    (howned : (owned_tasks pid (pit_db_load w).db.tasks.records).length = N)
    (hids : ((pit_db_load w).db.tasks.records.map (fun t => t.id)).Nodup) :
    ∃ w1, project_delete env id w = .ok w1 ∧
      w1.db.actions.getLast? =
        some { project_id := pid, task_id := 0,
               message := c_text ("deleted project " ++ fmt_d pid ++ ": ") ++
                 ((pit_db_load w).project pp).name } := by
  have hpw : (pit_db_load w).db.tasks.records.Pairwise (fun a b => a.id ≠ b.id) := by
    have := hids
    rw [List.Nodup, List.pairwise_map] at this
    exact this
  have hpp := project_find_current_slot id pid pp _ hfind
  obtain ⟨wc, hc, hrun⟩ := project_delete_spec env w id pid pp hfind (fun _ => hpw)
  have hpos : 0 < ((pit_db_load w).project pp).number_of_tasks := by
    rw [hcount]
    exact_mod_cast hN
  simp only [hpos, if_true] at hc
  have hwc : wc.project pp = ((pit_db_load w).project pp).dropTasks N := by
    simp only [World.project, hc.projects, Table.store, howned]
    exact getD_set_self _ _ _ _ hpp
  refine ⟨_, hrun, ?_⟩
  simp [project_deleted, pit_db_save, project_log_delete, pit_action, World.setProjects, hwc,
    Project.dropTasks, hcount]

/-- C9 (counterexample): with a name field of 8 bytes, creating `AlphaBetaGamma`
stores a record named `AlphaBe`; the appended record does not have the supplied
name. -/
theorem C9_counterexample :
    ∃ w1, project_create env0 { name := some "AlphaBetaGamma", status := none }
        (World.boot Db.empty) = .ok w1 ∧
      w1.db.projects.records.map (fun p => p.name) = [c_text "AlphaBe"] ∧
      w1.db.projects.records.map (fun p => p.name) ≠ [c_text "AlphaBetaGamma"] :=
  ⟨_, rfl, by decide, by decide⟩

/-- C9 (amended): for every name `n` that no stored record has, create(n, status?)
succeeds and appends exactly one record at the end of the projects sequence, all
earlier records unchanged.  The new record has the next id of the table, as name
the first capacity - 1 bytes of `n` (all of `n` when it has no more bytes than
that), as status the supplied status or `active` when omitted, and as username
the current user, both cut likewise to the bytes their fields hold.  The current
mark becomes the new id, and exactly one Action Log entry is appended, with
project_id the new id, task_id 0 and message `created project <id>: <name>
(status: <status>)` built from the stored name and status.  The result is
saved. -/
theorem C9_create_postcondition (env : Env) (w : World) (n : String) (st : Option String)
    (hfresh : ∀ p ∈ (pit_db_load w).db.projects.records, p.name ≠ c_text n) :
    ∃ w1 r, project_create env { name := some n, status := st } w = .ok w1 ∧
      w1.db.projects.records = (pit_db_load w).db.projects.records ++ [r] ∧
      r.id = (pit_db_load w).db.projects.auto_increment + 1 ∧
      r.name = (c_text n).take (env.name_size - 1) ∧
      ((c_text n).length ≤ env.name_size - 1 → r.name = c_text n) ∧
      r.status = (c_text (st.getD "active")).take (env.status_size - 1) ∧
      ((c_text (st.getD "active")).length ≤ env.status_size - 1 →
        r.status = c_text (st.getD "active")) ∧
      r.username = (c_text env.current_user).take (env.username_size - 1) ∧
      ((c_text env.current_user).length ≤ env.username_size - 1 →
        r.username = c_text env.current_user) ∧
      r.number_of_tasks = 0 ∧
      w1.db.projects.current = r.id ∧
      w1.db.actions = (pit_db_load w).db.actions ++
        [{ project_id := r.id, task_id := 0,
           message := c_text ("created project " ++ fmt_d r.id ++ ": ") ++ r.name ++
             c_text " (status: " ++ r.status ++ c_text ")" }] ∧
      w1.db.tasks = (pit_db_load w).db.tasks ∧
      w1.disk = w1.db := by
  refine ⟨_, created_record env n st (pit_db_load w).db.projects,
    project_create_ok env w n st hfresh, ?_, rfl, rfl, ?_, rfl, ?_, rfl, ?_, rfl, ?_, ?_, ?_,
    rfl⟩
  · show (pit_db_load (pit_db_load w)).db.projects.records ++ _ = _
    rw [pit_db_load_db_idem]
  · intro hfit
    exact strncpy_field_of_fits _ _ hfit
  · intro hfit
    exact strncpy_field_of_fits _ _ hfit
  · intro hfit
    exact strncpy_field_of_fits _ _ hfit
  · show (pit_db_load (pit_db_load w)).db.projects.auto_increment + 1 = _
    rw [pit_db_load_db_idem]
    rfl
  · show (pit_db_load (pit_db_load w)).db.actions ++ _ = _
    rw [pit_db_load_db_idem]
  · show (pit_db_load (pit_db_load w)).db.tasks = _
    rw [pit_db_load_db_idem]

theorem C9_create_postcondition_witness :
    ∃ w1 r, project_create env0 { name := some "Gamma", status := none } (World.boot db0)
        = .ok w1 ∧
      w1.db.projects.records = (pit_db_load (World.boot db0)).db.projects.records ++ [r] ∧
      r.id = (pit_db_load (World.boot db0)).db.projects.auto_increment + 1 ∧
      r.name = (c_text "Gamma").take (env0.name_size - 1) ∧
      ((c_text "Gamma").length ≤ env0.name_size - 1 → r.name = c_text "Gamma") ∧
      r.status = (c_text ((none : Option String).getD "active")).take (env0.status_size - 1) ∧
      ((c_text ((none : Option String).getD "active")).length ≤ env0.status_size - 1 →
        r.status = c_text ((none : Option String).getD "active")) ∧
      r.username = (c_text env0.current_user).take (env0.username_size - 1) ∧
      ((c_text env0.current_user).length ≤ env0.username_size - 1 →
        r.username = c_text env0.current_user) ∧
      r.number_of_tasks = 0 ∧
      w1.db.projects.current = r.id ∧
      w1.db.actions = (pit_db_load (World.boot db0)).db.actions ++
        [{ project_id := r.id, task_id := 0,
           message := c_text ("created project " ++ fmt_d r.id ++ ": ") ++ r.name ++
             c_text " (status: " ++ r.status ++ c_text ")" }] ∧
      w1.db.tasks = (pit_db_load (World.boot db0)).db.tasks ∧
      w1.disk = w1.db :=
  C9_create_postcondition env0 (World.boot db0) "Gamma" none (by decide)

/-- C10: project list hands the formatter exactly the records, in insertion
order, whose name contains the name filter (if given) and whose status contains
the status filter (if given), both as case-insensitive substrings; with no
filter it hands over every record.  It leaves the tables, the current marks and
the log as loaded, leaves the persisted store untouched and performs no save. -/
theorem C10_list_filtering (po : Options) (w : World) :
    ∃ w1 added, project_list po w = .ok w1 ∧
      w1.trace = w.trace ++ Event.load :: added ∧
      formatted added =
        (pit_db_load w).db.projects.records.filter (project_list_passes po) ∧
      (po = Options.zero → formatted added = (pit_db_load w).db.projects.records) ∧
      (∀ p, project_list_passes po p = true ↔
        (∀ n, po.name = some n →
          ((c_text n).map byte_lower) <:+: (p.name.map byte_lower)) ∧
        (∀ s, po.status = some s →
          ((c_text s).map byte_lower) <:+: (p.status.map byte_lower))) ∧
      Event.save ∉ added ∧
      w1.db = (pit_db_load w).db ∧ w1.disk = w.disk := by
  have htrace0 : (pit_db_load w).trace = w.trace ++ [Event.load] := by
    unfold pit_db_load
    split <;> rfl
  have hpass : ∀ p, project_list_passes po p = true ↔
      (∀ n, po.name = some n →
        ((c_text n).map byte_lower) <:+: (p.name.map byte_lower)) ∧
      (∀ s, po.status = some s →
        ((c_text s).map byte_lower) <:+: (p.status.map byte_lower)) := by
    intro p
    unfold project_list_passes
    rcases po with ⟨_ | n, _ | s⟩ <;> simp [stristr_spec]
  have hzero : po = Options.zero →
      (pit_db_load w).db.projects.records.filter (project_list_passes po) =
        (pit_db_load w).db.projects.records := by
    intro h
    subst h
    rw [List.filter_eq_self]
    intro p _
    rfl
  by_cases hlen : (pit_db_load w).db.projects.records.length > 0
  · have hrun : project_list po w =
        .ok ((project_list_loop po (pit_db_load w).db.projects.records
          ((pit_db_load w).emit
            (Event.format_initialize (pit_db_load w).db.projects.records.length))).emit
          Event.format_flush) := by
      simp only [project_list, hlen, if_true]
      rfl
    refine ⟨_, Event.format_initialize (pit_db_load w).db.projects.records.length ::
        (((pit_db_load w).db.projects.records.filter (project_list_passes po)).map Event.format
          ++ [Event.format_flush]), hrun, ?_, ?_, ?_, hpass, ?_, ?_, ?_⟩
    · simp [project_list_loop_spec, World.emit, htrace0]
    · simp [formatted, formatted_append, formatted_map_format]
    · intro h
      simp [formatted, formatted_append, formatted_map_format, hzero h]
    · simp
    · simp [project_list_loop_spec, World.emit]
    · simp [project_list_loop_spec, World.emit, pit_db_load_disk]
  · have hnil : (pit_db_load w).db.projects.records = [] := by
      apply List.eq_nil_of_length_eq_zero
      omega
    have hrun : project_list po w = .ok (pit_db_load w) := by
      simp only [project_list, hlen, if_false]
    refine ⟨pit_db_load w, [], hrun, ?_, ?_, ?_, hpass, ?_, rfl, pit_db_load_disk w⟩
    · rw [htrace0]
    · simp [formatted, hnil]
    · intro _
      simp [formatted, hnil]
    · simp

/-- C11: target resolution.  A non-zero id resolves to a record with that id when
the table has one and otherwise dies with `could not find project <id>`, whatever
the current mark is; id 0 resolves to the record with the id of the current mark
and dies with `could not find current project` when the mark is 0 or no record
has its id.  The id returned is the id of the resolved record.  When resolution
fails, show, update and delete stop with that very failure: the world is the one
just loaded, with nothing written, logged or saved. -/
theorem C11_target_resolution (env : Env) (w : World) (id : Int) (po : Options) :
    (id ≠ 0 → (∃ r ∈ w.db.projects.records, r.id = id) →
      ∃ pp, project_find_current id w = .ok (id, pp) ∧
        pp < w.db.projects.records.length ∧ (w.project pp).id = id) ∧
    (id ≠ 0 → (∀ r ∈ w.db.projects.records, r.id ≠ id) →
      project_find_current id w =
        .error { stop := Stop.died ("could not find project " ++ fmt_d id), world := w }) ∧
    (w.db.projects.current ≠ 0 →
      (∃ r ∈ w.db.projects.records, r.id = w.db.projects.current) →
      ∃ pp, project_find_current 0 w = .ok (w.db.projects.current, pp) ∧
        pp < w.db.projects.records.length ∧ (w.project pp).id = w.db.projects.current) ∧
    ((w.db.projects.current = 0 ∨ ∀ r ∈ w.db.projects.records, r.id ≠ w.db.projects.current) →
      project_find_current 0 w =
        .error { stop := Stop.died "could not find current project", world := w }) ∧
    (∀ f, project_find_current id (pit_db_load w) = .error f →
      f.world = pit_db_load w ∧ f.world.disk = w.disk ∧
      f.world.trace = w.trace ++ [Event.load] ∧
      project_show id w = .error f ∧ project_update env id po w = .error f ∧
      project_delete env id w = .error f) := by
  have hsome : ∀ k : Int, (∃ r ∈ w.db.projects.records, r.id = k) →
      ∃ pp, find_slot k w.db.projects.records = some pp :=
    fun k h => find_slot_of_mem k _ h
  have hnone : ∀ k : Int, (∀ r ∈ w.db.projects.records, r.id ≠ k) →
      find_slot k w.db.projects.records = none :=
    fun k h => find_slot_none k _ h
  refine ⟨?_, ?_, ?_, ?_, ?_⟩
  · intro hid hex
    obtain ⟨pp, hpp⟩ := hsome id hex
    have hok : project_find_current id w = .ok ((w.project pp).id, pp) := by
      simp only [project_find_current, ne_eq, hid, not_false_eq_true, if_true, pit_table_find, hpp]
    obtain ⟨-, -, h3, -⟩ := project_find_current_ok id _ pp w hok
    have hrid := h3 hid
    rw [hrid] at hok
    exact ⟨pp, hok, project_find_current_slot id id pp w hok, hrid⟩
  · intro hid hno
    simp only [project_find_current, ne_eq, hid, not_false_eq_true, if_true, pit_table_find,
      hnone id hno, die]
  · intro hcur hex
    obtain ⟨pp, hpp⟩ := hsome _ hex
    have hok : project_find_current 0 w = .ok ((w.project pp).id, pp) := by
      simp only [project_find_current, ne_eq, not_true_eq_false, if_false, pit_table_current,
        hcur, pit_table_find, hpp]
    obtain ⟨-, -, -, h4⟩ := project_find_current_ok 0 _ pp w hok
    have hrid := (h4 rfl).1
    rw [hrid] at hok
    exact ⟨pp, hok, project_find_current_slot 0 _ pp w hok, hrid⟩
  · intro h
    rcases h with h0 | hno
    · simp only [project_find_current, ne_eq, not_true_eq_false, if_false, pit_table_current,
        h0, if_true, die]
    · by_cases h0 : w.db.projects.current = 0
      · simp only [project_find_current, ne_eq, not_true_eq_false, if_false, pit_table_current,
          h0, if_true, die]
      · simp only [project_find_current, ne_eq, not_true_eq_false, if_false, pit_table_current,
          h0, pit_table_find, hnone _ hno, die]
  · intro f hf
    have hw : f.world = pit_db_load w := project_find_current_error id _ f hf
    have htrace0 : (pit_db_load w).trace = w.trace ++ [Event.load] := by
      unfold pit_db_load
      split <;> rfl
    refine ⟨hw, by rw [hw, pit_db_load_disk], by rw [hw, htrace0], ?_, ?_, ?_⟩
    · simp only [project_show, hf, bind, Except.bind]
    · simp only [project_update, hf, bind, Except.bind]
    · simp only [project_delete, hf, bind, Except.bind]

/-- C12: show.  Whenever the target resolves, show succeeds, leaves every project
record, the task table and the log as loaded, sets the current mark of the
projects table to the id of the shown record, prints one line, calls the task
listing for that project if and only if its number_of_tasks is greater than 0,
and saves. -/
theorem C12_show (w : World) (id pid : Int) (pp : Nat)
    (hfind : project_find_current id (pit_db_load w) = .ok (pid, pp)) :
    ∃ w1, project_show id w = .ok w1 ∧
      w1.db.projects.records = (pit_db_load w).db.projects.records ∧
      w1.db.projects.auto_increment = (pit_db_load w).db.projects.auto_increment ∧
      w1.db.tasks = (pit_db_load w).db.tasks ∧
      w1.db.actions = (pit_db_load w).db.actions ∧
      w1.db.projects.current = pid ∧
      (w1.project pp).id = pid ∧
      w1.trace = w.trace ++ Event.load :: Event.print (project_show_line ((pit_db_load w).project pp)) ::
        ((if 0 < ((pit_db_load w).project pp).number_of_tasks then [Event.task_list pid]
          else []) ++ [Event.save]) ∧
      (Event.task_list pid ∈ w1.trace.drop w.trace.length ↔
        0 < ((pit_db_load w).project pp).number_of_tasks) ∧
      w1.disk = w1.db := by
  obtain ⟨-, hpid, -, -⟩ := project_find_current_ok id pid pp _ hfind
  have hrun := project_show_ok w id pid pp hfind
  have htrace0 := pit_db_load_trace w
  by_cases hn : 0 < ((pit_db_load w).project pp).number_of_tasks
  · have hw : project_shown pp (pit_db_load w) =
        pit_db_save ((((pit_db_load w).emit (Event.print (project_show_line ((pit_db_load w).project pp)))).setProjects
          (pit_table_mark (pit_db_load w).db.projects pid)).emit (Event.task_list pid)) := by
      simp only [project_shown, gt_iff_lt, hn, if_true, hpid]
      rfl
    refine ⟨_, hrun, ?_, ?_, ?_, ?_, ?_, ?_, ?_, ?_, ?_⟩ <;> rw [hw]
    · rfl
    · rfl
    · rfl
    · rfl
    · rfl
    · exact hpid
    · simp [pit_db_save, World.emit, World.setProjects, htrace0, hn]
    · simp [pit_db_save, World.emit, World.setProjects, htrace0, hn]
    · rfl
  · have hw : project_shown pp (pit_db_load w) =
        pit_db_save (((pit_db_load w).emit (Event.print (project_show_line ((pit_db_load w).project pp)))).setProjects
          (pit_table_mark (pit_db_load w).db.projects pid)) := by
      simp only [project_shown, gt_iff_lt, hn, if_false, hpid]
      rfl
    refine ⟨_, hrun, ?_, ?_, ?_, ?_, ?_, ?_, ?_, ?_, ?_⟩ <;> rw [hw]
    · rfl
    · rfl
    · rfl
    · rfl
    · rfl
    · exact hpid
    · simp [pit_db_save, World.emit, World.setProjects, htrace0, hn]
    · simp [pit_db_save, World.emit, World.setProjects, htrace0, hn]
    · rfl

theorem C12_show_witness :
    ∃ w1, project_show 1 (World.boot db0) = .ok w1 ∧
      w1.db.projects.records = (pit_db_load (World.boot db0)).db.projects.records ∧
      w1.db.projects.auto_increment = (pit_db_load (World.boot db0)).db.projects.auto_increment ∧
      w1.db.tasks = (pit_db_load (World.boot db0)).db.tasks ∧
      w1.db.actions = (pit_db_load (World.boot db0)).db.actions ∧
      w1.db.projects.current = 1 ∧
      (w1.project 0).id = 1 ∧
      w1.trace = (World.boot db0).trace ++ Event.load :: Event.print (project_show_line ((pit_db_load (World.boot db0)).project 0)) ::
        ((if 0 < ((pit_db_load (World.boot db0)).project 0).number_of_tasks
          then [Event.task_list 1] else []) ++ [Event.save]) ∧
      (Event.task_list 1 ∈ w1.trace.drop (World.boot db0).trace.length ↔
        0 < ((pit_db_load (World.boot db0)).project 0).number_of_tasks) ∧
      w1.disk = w1.db :=
  C12_show (World.boot db0) 1 1 0 (by rfl)

/-- C13 (counterexample): with a username field of 8 bytes and the acting user
`alexandria`, an update stores the username `alexand`, not the acting user. -/
theorem C13_counterexample :
    ∃ w1, project_update env1 1 { name := none, status := some "done" } (World.boot db0)
        = .ok w1 ∧
      (w1.project 0).id = 1 ∧
      (w1.project 0).username = c_text "alexand" ∧
      (w1.project 0).username ≠ c_text env1.current_user :=
  ⟨_, rfl, by decide, by decide, by decide⟩

/-- C13 (amended): for every successful project update, whichever of name and
status were supplied, the username of the target record becomes the first
capacity - 1 bytes of the acting user, capacity being the size of the username
field (all of the acting user when it has no more bytes than that), the current
mark of the projects table becomes the id of the target, and no other project
record is modified. -/
theorem C13_update_side_effects (env : Env) (w : World) (id pid : Int) (pp : Nat)
    (po : Options)
    (hfind : project_find_current id (pit_db_load w) = .ok (pid, pp)) :
    ∃ w1, project_update env id po w = .ok w1 ∧
      (w1.project pp).username = (c_text env.current_user).take (env.username_size - 1) ∧
      ((c_text env.current_user).length ≤ env.username_size - 1 →
        (w1.project pp).username = c_text env.current_user) ∧
      (w1.project pp).id = pid ∧
      w1.db.projects.current = pid ∧
      w1.db.projects.records.length = (pit_db_load w).db.projects.records.length ∧
      (∀ j, j ≠ pp → w1.db.projects.records[j]? = (pit_db_load w).db.projects.records[j]?) ∧
      w1.disk = w1.db := by
  obtain ⟨-, hpid, -, -⟩ := project_find_current_ok id pid pp _ hfind
  have hpp := project_find_current_slot id pid pp _ hfind
  have hrec := project_updated_record env po pp _ hpp
  refine ⟨_, project_update_ok env w id pid pp po hfind, ?_, ?_, ?_, hpid, ?_, ?_, rfl⟩
  · rw [hrec]
    rfl
  · intro hfit
    rw [hrec]
    exact strncpy_field_of_fits _ _ hfit
  · rw [hrec]
    exact hpid
  · show (List.set _ _ _).length = _
    rw [List.length_set]
  · intro j hj
    show (List.set _ _ _)[j]? = _
    rw [List.getElem?_set_ne (Ne.symm hj)]

theorem C13_update_side_effects_witness :
    ∃ w1, project_update env0 1 { name := none, status := some "done" } (World.boot db0)
        = .ok w1 ∧
      (w1.project 0).username = (c_text env0.current_user).take (env0.username_size - 1) ∧
      ((c_text env0.current_user).length ≤ env0.username_size - 1 →
        (w1.project 0).username = c_text env0.current_user) ∧
      (w1.project 0).id = 1 ∧
      w1.db.projects.current = 1 ∧
      w1.db.projects.records.length =
        (pit_db_load (World.boot db0)).db.projects.records.length ∧
      (∀ j, j ≠ 0 → w1.db.projects.records[j]? =
        (pit_db_load (World.boot db0)).db.projects.records[j]?) ∧
      w1.disk = w1.db :=
  C13_update_side_effects env0 (World.boot db0) 1 1 0 { name := none, status := some "done" }
    (by rfl)

/-- C14 (counterexample): a successful delete that cascades saves more than once.
Project 1 owns tasks 1 and 3; each task deletion does the load and the save of
the task subsystem, so the run makes three saves and is not a run with exactly
one save. -/
theorem C14_counterexample :
    ∃ w1, project_delete env0 1 (World.boot db0) = .ok w1 ∧
      w1.trace = [Event.load, Event.task_delete 1, Event.load, Event.save,
        Event.task_delete 3, Event.load, Event.save, Event.save] ∧
      w1.trace.count Event.save = 3 ∧
      ¬ Saved (World.boot db0) w1 := by
  have hrun : ∃ w1, project_delete env0 1 (World.boot db0) = .ok w1 ∧
      w1.trace = [Event.load, Event.task_delete 1, Event.load, Event.save,
        Event.task_delete 3, Event.load, Event.save, Event.save] := ⟨_, rfl, by decide⟩
  obtain ⟨w1, hrun, htr⟩ := hrun
  refine ⟨w1, hrun, htr, by rw [htr]; decide, ?_⟩
  rintro ⟨mid, h, hn, -⟩
  rw [htr] at h
  have h2 : [Event.task_delete 1, Event.load, Event.save, Event.task_delete 3, Event.load,
      Event.save] ++ [Event.save] = mid ++ [Event.save] := (List.cons.inj h).2
  have h4 := List.append_cancel_right h2
  rw [← h4] at hn
  exact hn (by decide)

/-- C14 (amended): save discipline of one invocation, on the trace of calls.
Load first: started in two worlds that load to the same world, every operation
has the same outcome, so nothing is read from or written to the tables in memory
before the load; the subcommand either has the same outcome too, or dies on its
command line in both, in the world it started in.  A successful create, update
or show makes calls that begin with a load and end with the only save (`Saved`).
A successful delete begins with a load and ends with its own save, and before it
each cascaded task deletion is followed by the load and the save of the task
subsystem (`Cascade_saved`): it saves once more than it deletes tasks, and
exactly once when it deletes none.  A failed operation, whatever the failure,
makes no save, leaves the persisted store untouched, and its calls, if any, begin
with a load (`Unsaved`); list begins with a load and makes no save.  Every run of
the subcommand ends in one of these ways. -/
theorem C14_save_discipline (env : Env) (argv : List String) (w : World) (id : Int)
    (po : Options) :
    (∀ w2, pit_db_load w2 = pit_db_load w →
      project_list po w2 = project_list po w ∧
      project_show id w2 = project_show id w ∧
      project_create env po w2 = project_create env po w ∧
      project_update env id po w2 = project_update env id po w ∧
      project_delete env id w2 = project_delete env id w ∧
      (pit_project env argv w2 = pit_project env argv w ∨
        ∃ m, pit_project env argv w = die m w ∧ pit_project env argv w2 = die m w2)) ∧
    (∀ w1, pit_project env argv w = .ok w1 →
      Saved w w1 ∨
      (Cascade_saved w w1 ∧ ∃ n, pit_project env argv w = project_delete env n w) ∨
      (Unsaved w w1 ∧ (∃ rest, w1.trace = w.trace ++ Event.load :: rest) ∧
        ∃ fo, pit_project env argv w = project_list fo w)) ∧
    (∀ f, pit_project env argv w = .error f → Unsaved w f.world) ∧
    (∀ w1, project_create env po w = .ok w1 → Saved w w1) ∧
    (∀ f, project_create env po w = .error f → Unsaved w f.world) ∧
    (∀ w1, project_update env id po w = .ok w1 → Saved w w1) ∧
    (∀ f, project_update env id po w = .error f → Unsaved w f.world) ∧
    (∀ w1, project_delete env id w = .ok w1 →
      Cascade_saved w w1 ∧
      (w1.trace.drop w.trace.length).count Event.save =
        (task_deletions (w1.trace.drop w.trace.length)).length + 1 ∧
      (task_deletions (w1.trace.drop w.trace.length) = [] → Saved w w1)) ∧
    (∀ f, project_delete env id w = .error f → Unsaved w f.world) ∧
    (∀ w1, project_show id w = .ok w1 → Saved w w1) ∧
    (∀ f, project_show id w = .error f → Unsaved w f.world) ∧
    (∃ w1, project_list po w = .ok w1 ∧ Unsaved w w1 ∧
      ∃ rest, w1.trace = w.trace ++ Event.load :: rest) := by
  have ok_of : ∀ (r : Except Failure World), Disciplined w r → ∀ w1, r = .ok w1 → Saved w w1 := by
    intro r hr w1 h
    rw [h] at hr
    exact hr
  have err_of : ∀ (r : Except Failure World), Disciplined w r →
      ∀ f, r = .error f → Unsaved w f.world := by
    intro r hr f h
    rw [h] at hr
    exact hr
  refine ⟨?_, ?_, ?_, ok_of _ (project_create_disciplined env po w),
    err_of _ (project_create_disciplined env po w),
    ok_of _ (project_update_disciplined env id po w),
    err_of _ (project_update_disciplined env id po w),
    ?_,
    (project_delete_cascade_saved env id w).2,
    ok_of _ (project_show_disciplined id w),
    err_of _ (project_show_disciplined id w),
    project_list_unsaved po w⟩
  · intro w2 h
    obtain ⟨h1, h2, h3, h4, h5⟩ := operations_load_first env id po w w2 h
    exact ⟨h1, h2, h3, h4, h5, pit_project_load_first env argv w w2 h⟩
  · intro w1 h
    rcases pit_project_cases env argv w with ⟨fo, hc⟩ | ⟨n, hc⟩ | ⟨co, hc⟩ | ⟨n, uo, hc⟩ |
        ⟨n, hc⟩ | ⟨f, hc, -⟩
    · obtain ⟨w2, hl, hu, hrest⟩ := project_list_unsaved fo w
      rw [hc, hl] at h
      cases h
      exact Or.inr (Or.inr ⟨hu, hrest, fo, hc⟩)
    · exact Or.inl (ok_of _ (project_show_disciplined n w) w1 (hc ▸ h))
    · exact Or.inl (ok_of _ (project_create_disciplined env co w) w1 (hc ▸ h))
    · exact Or.inl (ok_of _ (project_update_disciplined env n uo w) w1 (hc ▸ h))
    · exact Or.inr (Or.inl ⟨(project_delete_cascade_saved env n w).1 w1 (hc ▸ h), n, hc⟩)
    · rw [hc] at h
      cases h
  · intro f h
    rcases pit_project_cases env argv w with ⟨fo, hc⟩ | ⟨n, hc⟩ | ⟨co, hc⟩ | ⟨n, uo, hc⟩ |
        ⟨n, hc⟩ | ⟨f2, hc, hw⟩
    · obtain ⟨w2, hl, -, -⟩ := project_list_unsaved fo w
      rw [hc, hl] at h
      cases h
    · exact err_of _ (project_show_disciplined n w) f (hc ▸ h)
    · exact err_of _ (project_create_disciplined env co w) f (hc ▸ h)
    · exact err_of _ (project_update_disciplined env n uo w) f (hc ▸ h)
    · exact (project_delete_cascade_saved env n w).2 f (hc ▸ h)
    · rw [hc] at h
      cases h
      exact ⟨[], by rw [hw]; simp, by simp, Or.inl rfl, by rw [hw]⟩
  · intro w1 h
    have hcs := (project_delete_cascade_saved env id w).1 w1 h
    obtain ⟨ds, htr, hdisk⟩ := hcs
    have hdel : task_deletions (w1.trace.drop w.trace.length) = ds := by
      rw [htr, List.drop_left]
      exact cascade_trace_deletions ds
    have hcount : (w1.trace.drop w.trace.length).count Event.save = ds.length + 1 := by
      rw [htr, List.drop_left]
      exact cascade_trace_saves ds
    refine ⟨⟨ds, htr, hdisk⟩, ?_, ?_⟩
    · rw [hcount, hdel]
    · intro hnil
      rw [hdel] at hnil
      subst hnil
      exact ⟨[], by simpa using htr, by simp, hdisk⟩

/-- C15: query dispatch.  `project` alone lists all projects; `project <number>`
and `project -q <number>` show that project (a token is a number when
pit_arg_number reads it as non-zero); `project -q` with nothing after it shows
the current project; `project -q` followed by -n and/or -s with their values
lists the projects passing those filters. -/
theorem C15_query_dispatch (env : Env) (w : World) (tok x y : String) (rest : List String)
    (hnum : pit_arg_number (some tok) ≠ 0) :
    pit_project env ["project"] w = project_list Options.zero w ∧
    pit_project env ("project" :: tok :: rest) w = project_show (pit_arg_number (some tok)) w ∧
    pit_project env ("project" :: "-q" :: tok :: rest) w =
      project_show (pit_arg_number (some tok)) w ∧
    pit_project env ["project", "-q"] w = project_show 0 w ∧
    pit_project env ["project", "-q", "-n", x] w =
      project_list { name := some x, status := none } w ∧
    pit_project env ["project", "-q", "-s", y] w =
      project_list { name := none, status := some y } w ∧
    pit_project env ["project", "-q", "-n", x, "-s", y] w =
      project_list { name := some x, status := some y } w ∧
    pit_project env ["project", "-q", "-s", y, "-n", x] w =
      project_list { name := some x, status := some y } w := by
  have hq : pit_arg_number (some "-q") = 0 := by decide
  have hoq : pit_arg_option "-q" = some 'q' := by decide
  have hn : pit_arg_number (some "-n") = 0 := by decide
  have hs : pit_arg_number (some "-s") = 0 := by decide
  have hon : pit_arg_option "-n" = some 'n' := by decide
  have hos : pit_arg_option "-s" = some 's' := by decide
  have hnil : ∀ po, project_parse_options_loop [] po w = .ok po := fun _ => rfl
  refine ⟨rfl, ?_, ?_, ?_, ?_, ?_, ?_, ?_⟩
  · simp only [pit_project, List.getElem?_cons_succ, List.getElem?_cons_zero, hnum, ne_eq,
      not_false_eq_true, if_true]
  · simp only [pit_project, List.getElem?_cons_succ, List.getElem?_cons_zero, hq, hoq, hnum,
      ne_eq, not_true_eq_false, not_false_eq_true, if_true, if_false]
  · rfl
  · simp only [pit_project, List.getElem?_cons_succ, List.getElem?_cons_zero, hq, hoq, hn,
      ne_eq, not_true_eq_false, if_false, project_parse_options, List.drop_succ_cons,
      List.drop_zero, parse_loop_name _ _ _ _ _ hon, hnil, bind, Except.bind, is_zero,
      Options.zero]
    rfl
  · simp only [pit_project, List.getElem?_cons_succ, List.getElem?_cons_zero, hq, hoq, hs,
      ne_eq, not_true_eq_false, if_false, project_parse_options, List.drop_succ_cons,
      List.drop_zero, parse_loop_status _ _ _ _ _ hos, hnil, bind, Except.bind, is_zero,
      Options.zero]
    rfl
  · simp only [pit_project, List.getElem?_cons_succ, List.getElem?_cons_zero, hq, hoq, hn,
      ne_eq, not_true_eq_false, if_false, project_parse_options, List.drop_succ_cons,
      List.drop_zero, parse_loop_name _ _ _ _ _ hon, parse_loop_status _ _ _ _ _ hos, hnil,
      bind, Except.bind, is_zero, Options.zero]
    rfl
  · simp only [pit_project, List.getElem?_cons_succ, List.getElem?_cons_zero, hq, hoq, hs,
      ne_eq, not_true_eq_false, if_false, project_parse_options, List.drop_succ_cons,
      List.drop_zero, parse_loop_name _ _ _ _ _ hon, parse_loop_status _ _ _ _ _ hos, hnil,
      bind, Except.bind, is_zero, Options.zero]
    rfl

theorem C15_query_dispatch_witness :
    pit_project env0 ["project"] (World.boot db0) =
      project_list Options.zero (World.boot db0) ∧
    pit_project env0 ("project" :: "2" :: []) (World.boot db0) =
      project_show (pit_arg_number (some "2")) (World.boot db0) ∧
    pit_project env0 ("project" :: "-q" :: "2" :: []) (World.boot db0) =
      project_show (pit_arg_number (some "2")) (World.boot db0) ∧
    pit_project env0 ["project", "-q"] (World.boot db0) = project_show 0 (World.boot db0) ∧
    pit_project env0 ["project", "-q", "-n", "alp"] (World.boot db0) =
      project_list { name := some "alp", status := none } (World.boot db0) ∧
    pit_project env0 ["project", "-q", "-s", "act"] (World.boot db0) =
      project_list { name := none, status := some "act" } (World.boot db0) ∧
    pit_project env0 ["project", "-q", "-n", "alp", "-s", "act"] (World.boot db0) =
      project_list { name := some "alp", status := some "act" } (World.boot db0) ∧
    pit_project env0 ["project", "-q", "-s", "act", "-n", "alp"] (World.boot db0) =
      project_list { name := some "alp", status := some "act" } (World.boot db0) :=
  C15_query_dispatch env0 (World.boot db0) "2" "alp" "act" [] (by decide)

/-- C16 (counterexample): tokens after `-d [number]` are never inspected.
`project -d 1 -x` deletes project 1 and saves, and `project -d -x` deletes the
current project (2), although `-x` is no recognised option. -/
theorem C16_counterexample :
    (∃ w1, pit_project env0 ["project", "-d", "1", "-x"] (World.boot db0) = .ok w1 ∧
      w1.disk.projects.records.map (fun p => p.id) = [2] ∧ Event.save ∈ w1.trace) ∧
    (∃ w2, pit_project env0 ["project", "-d", "-x"] (World.boot db0) = .ok w2 ∧
      w2.disk.projects.records.map (fun p => p.id) = [1] ∧ Event.save ∈ w2.trace) :=
  ⟨⟨_, rfl, by decide, by decide⟩, ⟨_, rfl, by decide, by decide⟩⟩

/-- C16 (amended): option tokens are rejected where the command reads them, and
only there.  (1) A first token that is neither a number nor one of -c, -e, -d, -q
makes the command die with `invalid project option: <token>`.  (2)-(5) After
`-c <name>`, after `-e <number>`, after `-e` and after `-q`, the first token in
option position that is neither -n nor -s (the tokens before it being -n or -s
options with their values) makes the command die with `invalid project option:
<token>`; directly after `-e` or `-q` such a token is rejected when it is not a
number, since a number there is the target.  Each of these deaths leaves the
world the command started in: nothing is loaded, changed, logged or saved.
(6)-(8) Tokens after `project <number>`, after `-q <number>` and after
`-d [number]` are not read: whatever follows, the command is the show of that
number, respectively the delete of the number that follows `-d` (0 when the
token after `-d` is absent or is not a number). -/
theorem C16_invalid_option (env : Env) (w : World) (tok bad name num : String)
    (fields : List (String × String)) (rest : List String) :
    (pit_arg_number (some tok) = 0 →
      (pit_arg_option tok ≠ some 'c' ∧ pit_arg_option tok ≠ some 'e' ∧
        pit_arg_option tok ≠ some 'd' ∧ pit_arg_option tok ≠ some 'q') →
      pit_project env ("project" :: tok :: rest) w =
        .error { stop := Stop.died ("invalid project option: " ++ tok), world := w }) ∧
    ((∀ p ∈ fields, is_field_option p.1) → ¬ is_field_option bad →
      pit_project env ("project" :: "-c" :: name :: (field_tokens fields ++ bad :: rest)) w =
        .error { stop := Stop.died ("invalid project option: " ++ bad), world := w }) ∧
    ((∀ p ∈ fields, is_field_option p.1) → ¬ is_field_option bad →
      pit_arg_number (some num) ≠ 0 →
      pit_project env ("project" :: "-e" :: num :: (field_tokens fields ++ bad :: rest)) w =
        .error { stop := Stop.died ("invalid project option: " ++ bad), world := w }) ∧
    ((∀ p ∈ fields, is_field_option p.1) → ¬ is_field_option bad →
      (fields = [] → pit_arg_number (some bad) = 0) →
      pit_project env ("project" :: "-e" :: (field_tokens fields ++ bad :: rest)) w =
        .error { stop := Stop.died ("invalid project option: " ++ bad), world := w }) ∧
    ((∀ p ∈ fields, is_field_option p.1) → ¬ is_field_option bad →
      (fields = [] → pit_arg_number (some bad) = 0) →
      pit_project env ("project" :: "-q" :: (field_tokens fields ++ bad :: rest)) w =
        .error { stop := Stop.died ("invalid project option: " ++ bad), world := w }) ∧
    (pit_arg_number (some num) ≠ 0 →
      pit_project env ("project" :: num :: rest) w =
        project_show (pit_arg_number (some num)) w) ∧
    (pit_arg_number (some num) ≠ 0 →
      pit_project env ("project" :: "-q" :: num :: rest) w =
        project_show (pit_arg_number (some num)) w) ∧
    pit_project env ("project" :: "-d" :: rest) w =
      project_delete env (pit_arg_number rest[0]?) w := by
  have hloop : (∀ p ∈ fields, is_field_option p.1) → ¬ is_field_option bad →
      ∀ po, project_parse_options_loop (field_tokens fields ++ bad :: rest) po w =
        die ("invalid project option: " ++ bad) w :=
    fun hfields hbad po =>
      parse_loop_fields bad rest w (fun h => hbad (Or.inl h)) (fun h => hbad (Or.inr h))
        fields po hfields
  have hc : pit_arg_number (some "-c") = 0 := by decide
  have hoc : pit_arg_option "-c" = some 'c' := by decide
  have he : pit_arg_number (some "-e") = 0 := by decide
  have hoe : pit_arg_option "-e" = some 'e' := by decide
  have hq : pit_arg_number (some "-q") = 0 := by decide
  have hoq : pit_arg_option "-q" = some 'q' := by decide
  have hd : pit_arg_number (some "-d") = 0 := by decide
  have hod : pit_arg_option "-d" = some 'd' := by decide
  refine ⟨?_, ?_, ?_, ?_, ?_, ?_, ?_, ?_⟩
  · intro htok0 htok
    unfold pit_project
    simp only [List.getElem?_cons_succ, List.getElem?_cons_zero, htok0, ne_eq,
      not_true_eq_false, if_false]
    split
    · rename_i h; exact absurd h htok.1
    · rename_i h; exact absurd h htok.2.1
    · rename_i h; exact absurd h htok.2.2.1
    · rename_i h; exact absurd h htok.2.2.2
    · rfl
  · intro hfields hbad
    simp only [pit_project, List.getElem?_cons_succ, List.getElem?_cons_zero, hc, hoc, ne_eq,
      not_true_eq_false, if_false, pit_arg_string, project_parse_options, List.drop_succ_cons,
      List.drop_zero, hloop hfields hbad, bind, Except.bind, die]
  · intro hfields hbad hnum
    simp only [pit_project, List.getElem?_cons_succ, List.getElem?_cons_zero, he, hoe, hnum,
      ne_eq, not_true_eq_false, if_false, project_parse_options, List.drop_succ_cons,
      List.drop_zero, hloop hfields hbad, bind, Except.bind, die]
  · intro hfields hbad hbad0
    have hhead := head_field_tokens_number fields bad rest hfields hbad0
    simp only [pit_project, List.getElem?_cons_succ, List.getElem?_cons_zero, he, hoe, hhead,
      ne_eq, not_true_eq_false, if_false, if_true, project_parse_options, List.drop_succ_cons,
      List.drop_zero, hloop hfields hbad, bind, Except.bind, die]
  · intro hfields hbad hbad0
    have hhead := head_field_tokens_number fields bad rest hfields hbad0
    simp only [pit_project, List.getElem?_cons_succ, List.getElem?_cons_zero, hq, hoq, hhead,
      ne_eq, not_true_eq_false, if_false, project_parse_options, List.drop_succ_cons,
      List.drop_zero, hloop hfields hbad, bind, Except.bind, die]
  · intro hnum
    simp only [pit_project, List.getElem?_cons_succ, List.getElem?_cons_zero, hnum, ne_eq,
      not_false_eq_true, if_true]
  · intro hnum
    simp only [pit_project, List.getElem?_cons_succ, List.getElem?_cons_zero, hq, hoq, hnum,
      ne_eq, not_true_eq_false, not_false_eq_true, if_false, if_true]
  · simp only [pit_project, List.getElem?_cons_succ, List.getElem?_cons_zero, hd, hod, ne_eq,
      not_true_eq_false, if_false]

theorem C16_invalid_option_witness :
    pit_project env0 ("project" :: "-z" :: ["7"]) (World.boot db0) =
      .error { stop := Stop.died ("invalid project option: " ++ "-z"),
               world := World.boot db0 } ∧
    pit_project env0
        ("project" :: "-c" :: "Gamma" :: (field_tokens [("-s", "new")] ++ "7" :: ["y"]))
        (World.boot db0) =
      .error { stop := Stop.died ("invalid project option: " ++ "7"),
               world := World.boot db0 } ∧
    pit_project env0
        ("project" :: "-e" :: "1" :: (field_tokens [("-s", "new")] ++ "7" :: ["y"]))
        (World.boot db0) =
      .error { stop := Stop.died ("invalid project option: " ++ "7"),
               world := World.boot db0 } ∧
    pit_project env0 ("project" :: "-e" :: (field_tokens [("-s", "new")] ++ "7" :: ["y"]))
        (World.boot db0) =
      .error { stop := Stop.died ("invalid project option: " ++ "7"),
               world := World.boot db0 } ∧
    pit_project env0 ("project" :: "-q" :: (field_tokens [("-s", "new")] ++ "7" :: ["y"]))
        (World.boot db0) =
      .error { stop := Stop.died ("invalid project option: " ++ "7"),
               world := World.boot db0 } ∧
    pit_project env0 ("project" :: "1" :: ["y"]) (World.boot db0) =
      project_show (pit_arg_number (some "1")) (World.boot db0) ∧
    pit_project env0 ("project" :: "-q" :: "1" :: ["y"]) (World.boot db0) =
      project_show (pit_arg_number (some "1")) (World.boot db0) ∧
    pit_project env0 ("project" :: "-d" :: ["y"]) (World.boot db0) =
      project_delete env0 (pit_arg_number ["y"][0]?) (World.boot db0) :=
  have hf : ∀ p ∈ [("-s", "new")], is_field_option p.1 := by
    intro p hp
    rw [List.mem_singleton] at hp
    subst hp
    exact Or.inr (by decide)
  have hb : ¬ is_field_option "7" := by
    intro h
    rcases h with h | h <;> exact absurd h (by decide)
  have hne : [("-s", "new")] = [] → pit_arg_number (some "7") = 0 := fun h => by cases h
  have h := C16_invalid_option env0 (World.boot db0) "-z" "7" "Gamma" "1" [("-s", "new")] ["y"]
  ⟨h.1 (by decide) (by decide), h.2.1 hf hb, h.2.2.1 hf hb (by decide), h.2.2.2.1 hf hb hne,
    h.2.2.2.2.1 hf hb hne, h.2.2.2.2.2.1 (by decide), h.2.2.2.2.2.2.1 (by decide),
    h.2.2.2.2.2.2.2⟩

/-- C17: bounded text fields, in bytes.  On buffers: `strncpy(field, src,
sizeof(field) - 1)` on a field whose last byte is NUL (any such field for an
update, the zeroed one for a create) leaves a field of the same size whose last
byte is NUL and which reads, as a C string, as the bytes of `src` when they are
at most size - 1 and as the first size - 1 of them otherwise, with nothing left
of the old content.  On records: every create that succeeds appended a record
holding name, status and username so cut, and a create with a name no stored
record has succeeds; every update that succeeds resolved its target and left in
it each supplied field and the username so cut, a supplied text that fits being
stored exactly, and an update whose target resolves succeeds. -/
theorem C17_bounded_text_fields (env : Env) (w : World) (n : String) (st : Option String)
    (id : Int) (po : Options) (size : Nat) (buf : Bytes) (src : String) :
    (terminated_field size buf → NUL ∉ c_text src →
      terminated_field size (c_strncpy buf (c_text src) (size - 1)) ∧
      c_string (c_strncpy buf (c_text src) (size - 1)) = strncpy_field size src) ∧
    (0 < size → NUL ∉ c_text src →
      terminated_field size (c_strncpy (List.replicate size NUL) (c_text src) (size - 1)) ∧
      c_string (c_strncpy (List.replicate size NUL) (c_text src) (size - 1)) =
        strncpy_field size src) ∧
    ((c_text src).length ≤ size - 1 → strncpy_field size src = c_text src) ∧
    strncpy_field size src = (c_text src).take (size - 1) ∧
    (∀ w1, project_create env { name := some n, status := st } w = .ok w1 →
      ∃ r, w1.db.projects.records = (pit_db_load w).db.projects.records ++ [r] ∧
        r.name = strncpy_field env.name_size n ∧
        ((c_text n).length ≤ env.name_size - 1 → r.name = c_text n) ∧
        r.status = strncpy_field env.status_size (st.getD "active") ∧
        ((c_text (st.getD "active")).length ≤ env.status_size - 1 →
          r.status = c_text (st.getD "active")) ∧
        r.username = strncpy_field env.username_size env.current_user ∧
        ((c_text env.current_user).length ≤ env.username_size - 1 →
          r.username = c_text env.current_user)) ∧
    ((∀ p ∈ (pit_db_load w).db.projects.records, p.name ≠ c_text n) →
      ∃ w1, project_create env { name := some n, status := st } w = .ok w1) ∧
    (∀ w2, project_update env id po w = .ok w2 →
      ∃ pid pp, project_find_current id (pit_db_load w) = .ok (pid, pp) ∧
        (∀ m, po.name = some m →
          (w2.project pp).name = strncpy_field env.name_size m ∧
          ((c_text m).length ≤ env.name_size - 1 → (w2.project pp).name = c_text m)) ∧
        (∀ s, po.status = some s →
          (w2.project pp).status = strncpy_field env.status_size s ∧
          ((c_text s).length ≤ env.status_size - 1 → (w2.project pp).status = c_text s)) ∧
        (w2.project pp).username = strncpy_field env.username_size env.current_user ∧
        ((c_text env.current_user).length ≤ env.username_size - 1 →
          (w2.project pp).username = c_text env.current_user)) ∧
    (∀ pid pp, project_find_current id (pit_db_load w) = .ok (pid, pp) →
      ∃ w2, project_update env id po w = .ok w2) := by
  refine ⟨c_strncpy_field size buf src,
    fun hpos hsrc => c_strncpy_field size _ src (zero_field_terminated size hpos) hsrc,
    strncpy_field_of_fits size src, rfl, ?_, ?_, ?_, ?_⟩
  · intro w1 h
    by_cases hdup : ∃ p ∈ (pit_db_load w).db.projects.records, p.name = c_text n
    · obtain ⟨f, hf, -⟩ := project_create_duplicate env w n st hdup
      rw [hf] at h
      cases h
    · have hfresh : ∀ p ∈ (pit_db_load w).db.projects.records, p.name ≠ c_text n :=
        fun p hp hn => hdup ⟨p, hp, hn⟩
      rw [project_create_ok env w n st hfresh] at h
      cases h
      refine ⟨created_record env n st (pit_db_load (pit_db_load w)).db.projects, ?_, rfl,
        strncpy_field_of_fits _ _, rfl, strncpy_field_of_fits _ _, rfl,
        strncpy_field_of_fits _ _⟩
      show (pit_db_load (pit_db_load w)).db.projects.records ++ _ = _
      rw [pit_db_load_db_idem]
  · intro hfresh
    exact ⟨_, project_create_ok env w n st hfresh⟩
  · intro w2 h
    cases hfind : project_find_current id (pit_db_load w) with
    | error f =>
      have hrun : project_update env id po w = .error f := by
        simp only [project_update, hfind, bind, Except.bind]
      rw [hrun] at h
      cases h
    | ok v =>
      obtain ⟨pid, pp⟩ := v
      have hpp := project_find_current_slot id pid pp _ hfind
      have hrec := project_updated_record env po pp _ hpp
      rw [project_update_ok env w id pid pp po hfind] at h
      cases h
      refine ⟨pid, pp, rfl, ?_, ?_, ?_, ?_⟩
      · intro m hm
        have hname : ((project_updated env po pp (pit_db_load w)).project pp).name =
            strncpy_field env.name_size m := by
          rw [hrec]
          simp only [updated_record, hm]
        exact ⟨hname, fun hfit => by rw [hname, strncpy_field_of_fits _ _ hfit]⟩
      · intro s hs
        have hstatus : ((project_updated env po pp (pit_db_load w)).project pp).status =
            strncpy_field env.status_size s := by
          rw [hrec]
          simp only [updated_record, hs]
        exact ⟨hstatus, fun hfit => by rw [hstatus, strncpy_field_of_fits _ _ hfit]⟩
      · rw [hrec]
        rfl
      · intro hfit
        rw [hrec]
        exact strncpy_field_of_fits _ _ hfit
  · intro pid pp hfind
    exact ⟨_, project_update_ok env w id pid pp po hfind⟩

theorem C17_bounded_text_fields_witness :
    (terminated_field 8 (c_strncpy (c_text "Alpha" ++ [NUL, NUL, NUL]) (c_text "Al") (8 - 1)) ∧
      c_string (c_strncpy (c_text "Alpha" ++ [NUL, NUL, NUL]) (c_text "Al") (8 - 1)) =
        strncpy_field 8 "Al") ∧
    (terminated_field 8 (c_strncpy (List.replicate 8 NUL) (c_text "Al") (8 - 1)) ∧
      c_string (c_strncpy (List.replicate 8 NUL) (c_text "Al") (8 - 1)) =
        strncpy_field 8 "Al") ∧
    strncpy_field 8 "Al" = c_text "Al" ∧
    (∃ w1, project_create env0 { name := some "Al", status := none } (World.boot Db.empty)
      = .ok w1) ∧
    (∃ w2, project_update env0 1 { name := some "Al", status := none } (World.boot db0)
      = .ok w2) :=
  have h := C17_bounded_text_fields env0 (World.boot Db.empty) "Al" none 1
    { name := some "Al", status := none } 8 (c_text "Alpha" ++ [NUL, NUL, NUL]) "Al"
  have h2 := C17_bounded_text_fields env0 (World.boot db0) "Al" none 1
    { name := some "Al", status := none } 8 (c_text "Alpha" ++ [NUL, NUL, NUL]) "Al"
  ⟨h.1 ⟨by decide, by decide, by decide⟩ (by decide), h.2.1 (by decide) (by decide),
    h.2.2.1 (by decide), h.2.2.2.2.2.1 (by decide), h2.2.2.2.2.2.2.2 1 0 (by rfl)⟩

/-- C18: frame of the cascading delete.  When project delete succeeds (task ids
pairwise distinct, as the table assigns them), the projects sequence afterwards
is the loaded one with the slot of the target removed, so every other project
record is present, unchanged and in the same order; and the tasks of other
projects are exactly those of the loaded task table, unchanged and in the same
order.  The same holds for the saved store. -/
theorem C18_delete_frame (env : Env) (w w1 : World) (id : Int)
    (h : project_delete env id w = .ok w1)
    (hids : ((pit_db_load w).db.tasks.records.map (fun t => t.id)).Nodup) :
    ∃ pid pp, project_find_current id (pit_db_load w) = .ok (pid, pp) ∧
      ((pit_db_load w).project pp).id = pid ∧
      w1.db.projects.records = (pit_db_load w).db.projects.records.eraseIdx pp ∧
      other_tasks pid w1.db.tasks.records =
        other_tasks pid (pit_db_load w).db.tasks.records ∧
      w1.disk = w1.db := by
  have hpw : (pit_db_load w).db.tasks.records.Pairwise (fun a b => a.id ≠ b.id) := by
    have := hids
    rw [List.Nodup, List.pairwise_map] at this
    exact this
  cases hfind : project_find_current id (pit_db_load w) with
  | error f =>
    have hrun : project_delete env id w = .error f := by
      simp only [project_delete, hfind, bind, Except.bind]
    rw [hrun] at h
    cases h
  | ok v =>
    obtain ⟨pid, pp⟩ := v
    obtain ⟨-, hpid, -, -⟩ := project_find_current_ok id pid pp _ hfind
    obtain ⟨wc, hc, hrun⟩ := project_delete_spec env w id pid pp hfind (fun _ => hpw)
    rw [hrun] at h
    simp only [Except.ok.injEq] at h
    subst h
    refine ⟨pid, pp, rfl, hpid, ?_, ?_, rfl⟩
    · show wc.db.projects.records.eraseIdx pp = _
      by_cases hn : 0 < ((pit_db_load w).project pp).number_of_tasks
      · simp only [hn, if_true] at hc
        rw [hc.projects]
        simp only [Table.store]
        exact eraseIdx_set_same _ _ _
      · simp only [hn, if_false] at hc
        rw [hc]
    · show other_tasks pid wc.db.tasks.records = _
      by_cases hn : 0 < ((pit_db_load w).project pp).number_of_tasks
      · simp only [hn, if_true] at hc
        rw [hc.tasks_records]
        simp [other_tasks]
      · simp only [hn, if_false] at hc
        rw [hc]

theorem C18_delete_frame_witness :
    ∃ w1, project_delete env0 1 (World.boot db0) = .ok w1 ∧
      ((pit_db_load (World.boot db0)).db.tasks.records.map (fun t => t.id)).Nodup ∧
      ∃ pid pp, project_find_current 1 (pit_db_load (World.boot db0)) = .ok (pid, pp) ∧
        ((pit_db_load (World.boot db0)).project pp).id = pid ∧
        w1.db.projects.records = (pit_db_load (World.boot db0)).db.projects.records.eraseIdx pp ∧
        other_tasks pid w1.db.tasks.records =
          other_tasks pid (pit_db_load (World.boot db0)).db.tasks.records ∧
        w1.disk = w1.db :=
  ⟨_, rfl, by decide, C18_delete_frame env0 (World.boot db0) _ 1 rfl (by decide)⟩

/-- C19: cascade guard.  When the number_of_tasks of the target is not greater
than 0 at entry, project delete succeeds without scanning the task table: it
calls no task deletion (its calls are the load and the save) and leaves the task
table exactly as loaded, in memory and in the saved store, whatever tasks carry
the id of the deleted project. -/
theorem C19_cascade_guard (env : Env) (w : World) (id pid : Int) (pp : Nat)
    (hfind : project_find_current id (pit_db_load w) = .ok (pid, pp))
    (hzero : ((pit_db_load w).project pp).number_of_tasks ≤ 0) :
    ∃ w1, project_delete env id w = .ok w1 ∧
      w1.trace = w.trace ++ [Event.load, Event.save] ∧
      w1.db.tasks = (pit_db_load w).db.tasks ∧
      w1.disk.tasks = (pit_db_load w).db.tasks ∧
      w1.db.actions = (pit_db_load w).db.actions ++
        [{ project_id := pid, task_id := 0,
           message := c_text ("deleted project " ++ fmt_d pid ++ ": ") ++
             ((pit_db_load w).project pp).name }] := by
  have hn : ¬ (0 < ((pit_db_load w).project pp).number_of_tasks) := by omega
  obtain ⟨wc, hc, hrun⟩ := project_delete_spec env w id pid pp hfind
    (fun hpos => absurd hpos hn)
  simp only [hn, if_false] at hc
  subst hc
  refine ⟨_, hrun, ?_, rfl, rfl, ?_⟩
  · simp [project_deleted, pit_db_save, project_log_delete, pit_action, World.setProjects,
      pit_db_load_trace]
  · have hn2 : ¬ (((pit_db_load w).project pp).number_of_tasks > 0) := hn
    simp [project_deleted, pit_db_save, project_log_delete, pit_action, World.setProjects, hn2]

theorem C19_cascade_guard_witness :
    ∃ w1, project_delete env0 1 (World.boot db2) = .ok w1 ∧
      w1.trace = (World.boot db2).trace ++ [Event.load, Event.save] ∧
      w1.db.tasks = (pit_db_load (World.boot db2)).db.tasks ∧
      w1.disk.tasks = (pit_db_load (World.boot db2)).db.tasks ∧
      w1.db.actions = (pit_db_load (World.boot db2)).db.actions ++
        [{ project_id := 1, task_id := 0,
           message := c_text ("deleted project " ++ fmt_d 1 ++ ": ") ++
             ((pit_db_load (World.boot db2)).project 0).name }] :=
  C19_cascade_guard env0 (World.boot db2) 1 1 0 (by rfl) (by decide)

end Pit
